import Mathlib

/-!
Verification of the momentous-rs calendar core against its specification.

The definitions below are shallow embeddings of the Rust sources:
machine integers become `Nat`/`Int` (with explicit wrapping where Rust
would wrap), fallible operations return `Option`/`Except`, and the
leap-second chronology becomes an explicit list of segments.
-/

set_option linter.unusedVariables false

namespace Momentous

/-! Integer helpers, from `div_rem.rs`. -/

/-- Clamped quotient division (`ClampedDivRem::clamped_div_rem` on unsigned
integers): the quotient is `min (a / b) maxQ` and the remainder is
`a - q * b`. -/
def clampedDivRem (a b maxQ : Nat) : Nat × Nat :=
  let q := min (a / b) maxQ
  (q, a - q * b)

/-- Signed division pair from `DivRemCeil::div_rem_ceil`. Rust's `div_rem`
is truncated division, i.e. `Int.tdiv`/`Int.tmod`. -/
def divRemCeil (a b : Int) : Int × Int :=
  if 0 < a ∧ b < 0 then ((a - 1).tdiv b - 1, (a - 1).tmod b + b - 1)
  else if a < 0 ∧ 0 < b then ((a + 1).tdiv b - 1, (a + 1).tmod b + b + 1)
  else (a.tdiv b, a.tmod b)

/-! The normalized Gregorian date, from `gregorian_normalized_date.rs`. -/

/-- The five fields of `GregorianNormalizedDate`. In Rust `cycle` is an `i8`
and the remaining fields are `u8`/`u16`; all values stay well inside those
ranges, so `Int`/`Nat` model them faithfully. -/
structure GregorianNormalizedDate where
  cycle : Int
  century : Nat
  quadrennium : Nat
  year : Nat
  day : Nat
deriving DecidableEq, Repr

abbrev GND := GregorianNormalizedDate

/-- Days from 1970-01-01 to 2000-03-01 (`GREGORIAN_NORMALIZED_DATE_OFFSET_DAYS`). -/
def OFFSET : Int := 11017

/-- Smallest representable fixed day (`GregorianNormalizedDate::MIN_FIXED_DAY`). -/
def MIN_FIXED_DAY : Int := 11017 + (-128) * 146097

/-- Largest representable fixed day (`GregorianNormalizedDate::MAX_FIXED_DAY`). -/
def MAX_FIXED_DAY : Int := 11017 + 128 * 146097 - 1

/-- Leap-year test on normalized fields (`is_leap_year`). -/
def isLeapYear (century quadrennium year : Nat) : Bool :=
  year == 3 && !(quadrennium == 24 && century != 3)

/-- Fixed-day to normalized-date conversion (`GregorianNormalizedDate::from_day`).
Rust's `div_mod_floor` on `i32` is `Int.fdiv`/`Int.fmod`; the `as u32` cast of
the remainder is `Int.toNat`; the unsigned `div_rem` steps are `Nat` division. -/
def fromDay (day : Int) : Option GND :=
  if day < MIN_FIXED_DAY ∨ MAX_FIXED_DAY < day then none
  else
    let d := day - OFFSET
    let cycle := d.fdiv 146097
    let daysIntoCycle := (d.fmod 146097).toNat
    let p1 := clampedDivRem daysIntoCycle 36524 3
    let century := p1.1
    let daysIntoCentury := p1.2
    let quadrennium := daysIntoCentury / 1461
    let daysIntoQuadrennium := daysIntoCentury % 1461
    let p2 := clampedDivRem daysIntoQuadrennium 365 3
    some ⟨cycle, century, quadrennium, p2.1, p2.2⟩

/-- Normalized-date to fixed-day conversion (`GregorianNormalizedDate::to_day`). -/
def toDay (g : GND) : Int :=
  g.cycle * 146097 + g.century * 36524 + g.quadrennium * 1461 + g.year * 365 + g.day + OFFSET

/-- The data-model invariants of a `GregorianNormalizedDate` (spec section 3):
`cycle` fits an `i8`, `century ≤ 3`, `quadrennium ≤ 24`, `year ≤ 3`,
`day ≤ 365`, and `day = 365` only in a leap year. -/
def GValid (g : GND) : Prop :=
  -128 ≤ g.cycle ∧ g.cycle ≤ 127 ∧ g.century ≤ 3 ∧ g.quadrennium ≤ 24 ∧
    g.year ≤ 3 ∧ g.day ≤ 365 ∧
    (g.day = 365 → isLeapYear g.century g.quadrennium g.year = true)

instance (g : GND) : Decidable (GValid g) := by
  unfold GValid
  infer_instance

/-- Spec-side decomposition for C3, following the words of spec section 4.4:
take `d - 11017`, then `div_mod_floor` by 146097, `clamped_div_rem` by 36524
with maximum quotient 3, div-mod by 1461, and `clamped_div_rem` by 365 with
maximum quotient 3; out of range exactly outside `[MIN_FIXED_DAY, MAX_FIXED_DAY]`. -/
def fromDaySpec (fixedDay : Int) : Option GND :=
  if MIN_FIXED_DAY ≤ fixedDay ∧ fixedDay ≤ MAX_FIXED_DAY then
    let d := fixedDay - 11017
    let cycle := d.fdiv 146097
    let d1 := (d.fmod 146097).toNat
    let p1 := clampedDivRem d1 36524 3
    let p2 := (p1.2 / 1461, p1.2 % 1461)
    let p3 := clampedDivRem p2.2 365 3
    some ⟨cycle, p1.1, p2.1, p3.1, p3.2⟩
  else none

/-! The packed DateTime representation, from `iso8601/date_time.rs`. -/

/-- Precision enumeration from `iso8601/precision.rs`. -/
inductive Precision where
  | millennia
  | centuries
  | decades
  | years
  | months
  | weeks
  | days
  | hours
  | minutes
  | seconds
  | milliseconds
  | microseconds
  | nanoseconds
deriving DecidableEq, Repr

/-- Encoding of `Precision` (`DateTime::encode_precision`). -/
def encodePrecision : Precision → Nat
  | .millennia => 0
  | .centuries => 1
  | .decades => 2
  | .years => 3
  | .months => 4
  | .weeks => 5
  | .days => 6
  | .hours => 7
  | .minutes => 8
  | .seconds => 9
  | .milliseconds => 10
  | .microseconds => 11
  | .nanoseconds => 12

/-- Decoding of `Precision` (`DateTime::decode_precision`); out-of-range
values decode to nanoseconds, as in the source. -/
def decodePrecision (n : Nat) : Precision :=
  match n with
  | 0 => .millennia
  | 1 => .centuries
  | 2 => .decades
  | 3 => .years
  | 4 => .months
  | 5 => .weeks
  | 6 => .days
  | 7 => .hours
  | 8 => .minutes
  | 9 => .seconds
  | 10 => .milliseconds
  | 11 => .microseconds
  | _ => .nanoseconds

/-- Low 64-bit packing word (`DateTime::pack0`). Shifts on `u64` discard the
bits moved past bit 63, hence the explicit reduction modulo `2 ^ 64` on the
nanosecond term; `rebased_cycle & 0x1F` on a (possibly negative) `i32` keeps
the low five two's-complement bits, which is `(cycle + 6) % 32` on `Int`. -/
def pack0 (p : Precision) (gnd : GND) (second nanosecond : Nat) : Nat :=
  let pe := encodePrecision p
  let rebasedCycleLow := ((gnd.cycle + 6) % 32).toNat
  ((nanosecond &&& 0x7FFF0000) <<< 48) % (2 ^ 64) |||
    pe <<< 41 |||
    (second &&& 0x10000) <<< 40 |||
    rebasedCycleLow <<< 35 |||
    (gnd.century &&& 0x3) <<< 33 |||
    (gnd.quadrennium &&& 0x1F) <<< 27 |||
    (gnd.year &&& 0x3) <<< 25 |||
    (gnd.day &&& 0x1FF) <<< 16 |||
    (second &&& 0xFFFF)

/-- Unpacking of the low word (`DateTime::unpack0`). -/
def unpack0 (w0 : Nat) : Precision × GND × Nat × Nat :=
  let lowerSecond := w0 &&& 0xFFFF
  let day := (w0 >>> 16) &&& 0x1FF
  let year := (w0 >>> 25) &&& 0x3
  let quadrennium := (w0 >>> 27) &&& 0x1F
  let century := (w0 >>> 33) &&& 0x3
  let cycle : Int := (((w0 >>> 35) &&& 0x1F : Nat) : Int) - 6
  let second := ((w0 >>> 40) &&& 0x10000) ||| lowerSecond
  let precision := decodePrecision ((w0 >>> 41) % 256)
  let nanosecond := (w0 >>> 48) &&& 0x7FFF0000
  (precision, ⟨cycle, century, quadrennium, year, day⟩, second, nanosecond)

/-- Paired 80-bit packing (`DateTime::pack`): the high word plus the low
16 nanosecond bits in a `u16`. -/
def pack (p : Precision) (gnd : GND) (second nanosecond : Nat) : Nat × Nat :=
  (pack0 p gnd second nanosecond, nanosecond &&& 0xFFFF)

/-- Paired unpacking (`DateTime::unpack`). -/
def unpack (w0 w1 : Nat) : Precision × GND × Nat × Nat :=
  let r := unpack0 w0
  (r.1, r.2.1, r.2.2.1, r.2.2.2 ||| w1)

/-! The shared-vector cursor, from `shared_vec_cursor.rs`. The position
encoding uses 0 for the Start sentinel, `len + 1` for the End sentinel and
`i + 1` for the element position `At(i)`. -/

/-- Cursor advance (`SharedVecCursor::advance_by`). The first statement
computes `self.vec.len() - self.pos` in `usize`; when `pos > len` (the End
sentinel) that subtraction underflows, which panics in a debug build and
wraps in release, so the model returns `none` there. Otherwise the result
is the new position paired with the remaining count of a partial advance. -/
def advanceBy (len pos n : Nat) : Option (Nat × Option Nat) :=
  if len < pos then none
  else
    let remaining := len - pos
    let advance := min n remaining
    let newPos := pos + advance
    let k := n - advance
    some (newPos, if 0 < k then some k else none)

/-- Cursor retreat (`SharedVecCursor::revert_by`). The first statement
computes `self.pos - 1` in `usize`; at the Start sentinel (`pos = 0`) that
subtraction underflows, so the model returns `none` there. -/
def revertBy (len pos n : Nat) : Option (Nat × Option Nat) :=
  if pos < 1 then none
  else
    let remaining := pos - 1
    let revert := min n remaining
    let newPos := pos - revert
    let k := n - revert
    some (newPos, if 0 < k then some k else none)

/-! The leap-second chronology. `ContinuousTimeSegment` is from
`zoneinfo.rs`. The three-way lookups returning `SegmentLookupResult`
are consumed by `iso8601/date_time.rs` but implemented outside src, so
they are modelled from the spec (section 4.3). -/

/-- A continuous stretch of wall-clock time between leap-second insertions
(`ContinuousTimeSegment`). Rust uses `i32`/`u32`/`i8` fields; values stay
well inside those ranges. -/
structure ContinuousTimeSegment where
  start_instant : Int
  start_day : Int
  duration_days : Int
  leap_seconds : Int
  accumulated_leap_seconds : Int
deriving DecidableEq, Repr

abbrev Segment := ContinuousTimeSegment

/-- End day of a segment: `start_day + duration_days` (spec section 3). -/
def Segment.endDay (s : Segment) : Int := s.start_day + s.duration_days

/-- End instant of a segment:
`start_instant + 86400 * duration_days + leap_seconds` (spec section 3). -/
def Segment.endInstant (s : Segment) : Int :=
  s.start_instant + 86400 * s.duration_days + s.leap_seconds

/-- Modelled from the spec: the three-way result of the segment-store
lookups (`SegmentLookupResult`, whose definition is not under src). -/
inductive SegmentLookupResult where
  | beforeFirst (first : Segment)
  | inSegment (seg : Segment)
  | afterLast (last : Segment)
deriving DecidableEq, Repr

/-- Day membership in the half-open interval `[start_day, end_day)`. -/
def containsDay (s : Segment) (day : Int) : Bool :=
  decide (s.start_day ≤ day) && decide (day < s.endDay)

/-- Instant membership in the half-open interval `[start_instant, end_instant)`. -/
def containsInstant (s : Segment) (i : Int) : Bool :=
  decide (s.start_instant ≤ i) && decide (i < s.endInstant)

/-- Modelled from the spec: `by_day` looks a fixed day up among the ordered
half-open `[start_day, end_day)` intervals and reports BeforeFirst, In, or
AfterLast; `none` models the empty store, on which the source panics. -/
def byDay (segs : List Segment) (day : Int) : Option SegmentLookupResult :=
  match segs with
  | [] => none
  | first :: _ =>
    if day < first.start_day then some (.beforeFirst first)
    else
      match segs.find? (fun s => containsDay s day) with
      | some s => some (.inSegment s)
      | none => segs.getLast?.map .afterLast

/-- Modelled from the spec: `by_instant` looks a seconds instant up among
the ordered half-open `[start_instant, end_instant)` intervals. -/
def byInstant (segs : List Segment) (i : Int) : Option SegmentLookupResult :=
  match segs with
  | [] => none
  | first :: _ =>
    if i < first.start_instant then some (.beforeFirst first)
    else
      match segs.find? (fun s => containsInstant s i) with
      | some s => some (.inSegment s)
      | none => segs.getLast?.map .afterLast

/-- Day range of a `DateTime`: `MIN_FIXED_DAY` in `iso8601/date_time.rs`
(0000-01-01). -/
def MIN_DT_FIXED_DAY : Int := -719528

/-- Day range of a `DateTime`: `MAX_FIXED_DAY` in `iso8601/date_time.rs`
(9999-12-31). -/
def MAX_DT_FIXED_DAY : Int := 2932896

/-- Contiguity chain for a segment list starting at a given day and
instant: each segment starts exactly where the previous one ended, lasts at
least one day, and has an `i8` leap count (spec section 3 invariants;
`load_leap_segments` builds exactly such a list from day 0, instant 0). -/
def chainFrom (d i : Int) : List Segment → Bool
  | [] => true
  | s :: rest =>
    decide (s.start_day = d) && decide (s.start_instant = i) &&
      decide (1 ≤ s.duration_days) && decide (-127 ≤ s.leap_seconds) &&
      decide (s.leap_seconds ≤ 127) &&
      chainFrom (d + s.duration_days) (i + 86400 * s.duration_days + s.leap_seconds) rest

/-- Well-formed chronology: nonempty, contiguous from day 0 at instant 0,
and ending no later than the DateTime day range. -/
def WFSegments (segs : List Segment) : Bool :=
  !segs.isEmpty && chainFrom 0 0 segs &&
    (match segs.getLast? with
     | some last => decide (last.endDay ≤ MAX_DT_FIXED_DAY)
     | none => false)

/-- Wall-clock to seconds-instant conversion (`DateTime::to_second_instant`),
over the modelled segment lookup. -/
def toSecondInstant (segs : List Segment) (gnd : GND) (second : Nat) : Option Int :=
  let day := toDay gnd
  match byDay segs day with
  | some (.afterLast last) =>
    some (last.endInstant + (day - last.endDay) * 86400 + second)
  | some (.inSegment seg) =>
    some (seg.start_instant + (day - seg.start_day) * 86400 + second)
  | some (.beforeFirst first) =>
    some (first.start_instant - ((first.start_day - (day + 1)) * 86400 + (86400 - (second : Int))))
  | none => none

/-- Seconds-instant to wall-clock conversion (`DateTime::from_second_instant`).
The source's `assert_eq!(overshoot_days, 1)` and the `expect` on `from_day`
become `none` (panic) paths. -/
def fromSecondInstant (segs : List Segment) (i : Int) : Option (GND × Nat) :=
  match byInstant segs i with
  | some (.afterLast last) =>
    let diff := (i - last.endInstant).toNat
    let days := diff / 86400
    let second := diff % 86400
    let fixedDay := last.endDay + days
    if MAX_DT_FIXED_DAY < fixedDay then none
    else
      match fromDay fixedDay with
      | some g => some (g, second)
      | none => none
  | some (.inSegment seg) =>
    let sec := (i - seg.start_instant).toNat
    let days := sec / 86400
    let second := sec % 86400
    let maxDay := seg.duration_days - 1
    if maxDay < (days : Int) then
      if (days : Int) ≠ maxDay + 1 then none
      else
        match fromDay (seg.start_day + maxDay) with
        | some g => some (g, second + 86400)
        | none => none
    else
      match fromDay (seg.start_day + days) with
      | some g => some (g, second)
      | none => none
  | some (.beforeFirst first) =>
    let diff := (first.start_instant - i).toNat
    if diff % 86400 ≠ 0 then
      let days := diff / 86400 + 1
      let second := 86400 - diff % 86400
      let fixedDay := first.start_day - days
      if fixedDay < MIN_DT_FIXED_DAY then none
      else
        match fromDay fixedDay with
        | some g => some (g, second)
        | none => none
    else
      let days := diff / 86400
      let fixedDay := first.start_day - days
      if fixedDay < MIN_DT_FIXED_DAY then none
      else
        match fromDay fixedDay with
        | some g => some (g, 0)
        | none => none
  | none => none

/-- Modelled from the spec: `Instant::checked_add` (not under src) is
checked 64-bit addition of the seconds instant. -/
def i64CheckedAdd (a b : Int) : Option Int :=
  if -9223372036854775808 ≤ a + b ∧ a + b < 9223372036854775808 then some (a + b) else none

/-- Second-level addition (`DateTime::checked_add_seconds`): round-trip
through the seconds instant. A second-precision DateTime is modelled by its
normalized date and second-of-day. -/
def checkedAddSeconds (segs : List Segment) (dt : GND × Nat) (delta : Int) :
    Option (GND × Nat) :=
  match toSecondInstant segs dt.1 dt.2 with
  | none => none
  | some i =>
    match i64CheckedAdd i delta with
    | none => none
    | some j => fromSecondInstant segs j

/-- Displayed hour (`DateTime::hour`). -/
def hourOf (sod : Nat) : Nat := min (sod / 3600) 23

/-- Displayed minute (`DateTime::minute`). -/
def minuteOf (sod : Nat) : Nat := if sod < 86340 then sod % 3600 / 60 else 59

/-- Displayed second (`DateTime::second`). -/
def secondOf (sod : Nat) : Nat := if sod < 86340 then sod % 60 else sod - 86340

/-- End-of-day leap seconds of a fixed day: the leap count of its containing
segment when the day is that segment's last day, else 0 (the builder's
leap-second rule). -/
def eodLeap (segs : List Segment) (day : Int) : Int :=
  match segs.find? (fun s => containsDay s day) with
  | some s => if day = s.endDay - 1 then s.leap_seconds else 0
  | none => 0

/-- Representable second-precision DateTime: a valid normalized date inside
the DateTime day range whose second-of-day is below the true day length
`86400 + eodLeap` (the builder accepts exactly these second-of-day values). -/
def ValidSDT (segs : List Segment) (g : GND) (sod : Nat) : Prop :=
  GValid g ∧ MIN_DT_FIXED_DAY ≤ toDay g ∧ toDay g ≤ MAX_DT_FIXED_DAY ∧
    (sod : Int) < 86400 + eodLeap segs (toDay g)

/-! A concrete chronology: the IERS leap-second table, as consumed from
zoneinfo right/UTC at construction time (spec section 6). -/

/-- Leap-second table records `(unix_timestamp, cumulative_leap_second_count)`. -/
def utcLeapTable : List (Int × Int) :=
  [(78796800, 1), (94694400, 2), (126230400, 3), (157766400, 4), (189302400, 5),
   (220924800, 6), (252460800, 7), (283996800, 8), (315532800, 9), (362793600, 10),
   (394329600, 11), (425865600, 12), (489024000, 13), (567993600, 14), (631152000, 15),
   (662688000, 16), (709948800, 17), (741484800, 18), (773020800, 19), (820454400, 20),
   (867715200, 21), (915148800, 22), (1136073600, 23), (1230768000, 24), (1341100800, 25),
   (1435708800, 26), (1483228800, 27)]

/-- Segment construction from a leap table (`load_leap_segments` in
`zoneinfo.rs`): each leap entry closes a segment ending on day
`timestamp / 86400`, and the running start day, start instant and
accumulated count advance by the segment's extent. -/
def loadLeapSegments : List (Int × Int) → Int → Int → Int → List Segment
  | [], _, _, _ => []
  | (ts, total) :: rest, startDay, startInstant, prevTotal =>
    let endDay := ts / 86400
    let leap := total - prevTotal
    let durationDays := endDay - startDay
    let durationSeconds := durationDays * 86400 + leap
    ⟨startInstant, startDay, durationDays, leap, prevTotal⟩ ::
      loadLeapSegments rest (startDay + durationDays) (startInstant + durationSeconds) total

/-- The UTC chronology segment list. -/
def utcSegments : List Segment := loadLeapSegments utcLeapTable 0 0 0

/-! Date-level construction and calendar arithmetic
(`gregorian_normalized_date.rs` and `iso8601/date_time.rs`). -/

/-- First day-of-year of a (March-based, zero-based) month
(`year_day_from_month`). -/
def yearDayFromMonth (month : Nat) : Nat := (153 * month + 2) / 5

/-- Month of a (March-based) day-of-year (`month_from_year_day`). -/
def monthFromYearDay (day : Nat) : Nat := (5 * day + 2) / 153

/-- Month and day-in-month of a day-of-year (`month_day_from_year_day`). -/
def monthDayFromYearDay (yearDay : Nat) : Nat × Nat :=
  let month := monthFromYearDay yearDay
  (month, yearDay - yearDayFromMonth month)

/-- Decidable equality of `Except` results, for evaluating concrete runs. -/
instance {e a : Type} [DecidableEq e] [DecidableEq a] : DecidableEq (Except e a) := fun x y =>
  match x, y with
  | .error u, .error v =>
    if h : u = v then .isTrue (by rw [h]) else .isFalse (fun he => by cases he; exact h rfl)
  | .ok u, .ok v =>
    if h : u = v then .isTrue (by rw [h]) else .isFalse (fun he => by cases he; exact h rfl)
  | .error _, .ok _ => .isFalse (fun he => by cases he)
  | .ok _, .error _ => .isFalse (fun he => by cases he)

/-- The error type of `GregorianNormalizedDate::from_date`. -/
inductive DateError where
  | invalidDate
  | dateOutOfBounds
deriving DecidableEq, Repr

/-- `GregorianNormalizedDate::MIN_YEAR`. -/
def MIN_YEAR : Int := 2000 + (-128) * 400 + 1

/-- `GregorianNormalizedDate::MAX_YEAR`. -/
def MAX_YEAR : Int := 2000 + 128 * 400 - 1

/-- Civil-date to normalized-date conversion
(`GregorianNormalizedDate::from_date`). The `u8` subtraction `day - 1`
wraps when `day = 0` (release semantics), written `(day + 255) % 256`;
`div_mod_floor` on `i32` is `Int.fdiv`/`Int.fmod`. -/
def fromDate (year : Int) (month day : Nat) : Except DateError GND :=
  if year < MIN_YEAR ∨ MAX_YEAR < year then .error .dateOutOfBounds
  else if month < 1 ∨ 12 < month then .error .invalidDate
  else
    let m0 := month - 1
    let d0 := (day + 255) % 256
    let y1 := if m0 < 2 then year - 1 else year
    let m1 := if m0 < 2 then m0 + 12 else m0
    let m2 := m1 - 2
    let y2 := y1 - 2000
    let cycle := y2.fdiv 400
    let yearsIntoCycle := (y2.fmod 400).toNat
    let p1 := clampedDivRem yearsIntoCycle 100 3
    let century := p1.1
    let p2 := clampedDivRem p1.2 4 24
    let quadrennium := p2.1
    let yearsIntoQuadrennium := p2.2
    let monthDayOffset := yearDayFromMonth m2
    let totalDaysInMonth :=
      if m2 = 11 then
        if isLeapYear century quadrennium yearsIntoQuadrennium then 29 else 28
      else yearDayFromMonth (m2 + 1) - monthDayOffset
    if totalDaysInMonth ≤ d0 then .error .invalidDate
    else .ok ⟨cycle, century, quadrennium, yearsIntoQuadrennium, monthDayOffset + d0⟩

/-- Normalized-date to civil-date conversion
(`GregorianNormalizedDate::to_date`). The `i16`-to-`u16` reinterpretation of
the year is reduction modulo `2 ^ 16`. -/
def toDate (g : GND) : Nat × Nat × Nat :=
  let year := ((2000 + 400 * g.cycle + 100 * g.century + 4 * g.quadrennium + g.year) % 65536).toNat
  let p := monthDayFromYearDay g.day
  let month := p.1 + 2
  if 12 ≤ month then ((year + 1) % 65536, month - 12 + 1, p.2 + 1)
  else (year, month + 1, p.2 + 1)

/-- Two's-complement wrap to `i8`. -/
def wrap8 (x : Int) : Int := (x + 128) % 256 - 128

/-- Two's-complement wrap to `i16`. -/
def wrap16 (x : Int) : Int := (x + 32768) % 65536 - 32768

/-- Year cascade (`GregorianNormalizedDate::add_years_no_carry`): add the
delta to the year and carry through quadrennium, century and cycle with
`div_mod_floor`. The `i16` sum, the `i8` cast of the century count and the
`i8` additions wrap (release semantics). -/
def addYearsNoCarry (g : GND) (years : Int) : GND :=
  let t1 := wrap16 (g.year + years)
  let quadrenniums := t1.fdiv 4
  let year := (t1.fmod 4).toNat
  let t2 := g.quadrennium + quadrenniums
  let centuries := wrap8 (t2.fdiv 25)
  let quadrennium := (t2.fmod 25).toNat
  let t3 := wrap8 (g.century + centuries)
  let cycleDelta := t3.fdiv 4
  let century := (t3.fmod 4).toNat
  ⟨wrap8 (g.cycle + cycleDelta), century, quadrennium, year, g.day⟩

/-- `GregorianNormalizedDate::add_years`: the cascade, then the day-365
clamp with its day carry. -/
def addYears (g : GND) (years : Int) : GND × Bool :=
  let g1 := addYearsNoCarry g years
  if g1.day = 365 ∧ isLeapYear g1.century g1.quadrennium g1.year = false then
    (⟨g1.cycle, g1.century, g1.quadrennium, g1.year, 364⟩, true)
  else (g1, false)

/-- `GregorianNormalizedDate::year_length`. -/
def yearLength (g : GND) : Nat :=
  if isLeapYear g.century g.quadrennium g.year then 366 else 365

/-- Modelled from the spec: `i32::checked_add`. -/
def i32CheckedAdd (a b : Int) : Option Int :=
  if -2147483648 ≤ a + b ∧ a + b < 2147483648 then some (a + b) else none

/-- `GregorianNormalizedDate::add_days`: zero and within-year fast paths,
then the checked slow path through the fixed day. The `u16` subtraction
computing the remaining days of the year wraps (release semantics), hence
the `% 65536`. -/
def gndAddDays (g : GND) (days : Int) : Option GND :=
  if days = 0 then some g
  else if days < 0 then
    if -days ≤ (g.day : Int) then
      some ⟨g.cycle, g.century, g.quadrennium, g.year, ((g.day : Int) + days).toNat⟩
    else
      match i32CheckedAdd (toDay g) days with
      | none => none
      | some newDay => fromDay newDay
  else
    let remaining := ((yearLength g - 1 : Int) - g.day) % 65536
    if days ≤ remaining then
      some ⟨g.cycle, g.century, g.quadrennium, g.year, (((g.day : Int) + days) % 65536).toNat⟩
    else
      match i32CheckedAdd (toDay g) days with
      | none => none
      | some newDay => fromDay newDay

/-- Lexicographic less-or-equal of normalized dates (the derived `Ord` of
`GregorianNormalizedDate`). -/
def gndLe (a b : GND) : Bool :=
  if a.cycle ≠ b.cycle then decide (a.cycle < b.cycle)
  else if a.century ≠ b.century then decide (a.century < b.century)
  else if a.quadrennium ≠ b.quadrennium then decide (a.quadrennium < b.quadrennium)
  else if a.year ≠ b.year then decide (a.year < b.year)
  else decide (a.day ≤ b.day)

/-- `MIN_GND` of `iso8601/date_time.rs` (0000-01-01). -/
def MIN_GND : GND := ⟨-6, 3, 24, 3, 306⟩

/-- `MAX_GND` of `iso8601/date_time.rs` (9999-12-31). -/
def MAX_GND : GND := ⟨19, 3, 24, 3, 305⟩

/-- `is_in_range` of `iso8601/date_time.rs`. -/
def isInRange (g : GND) : Bool := gndLe MIN_GND g && gndLe g MAX_GND

/-- The carry of a `DateTimeWithCarry` (`days: u32`, `seconds: u64`). -/
structure Carry where
  days : Nat
  seconds : Nat
deriving DecidableEq, Repr

/-- A `DateTime` in unpacked form: the quadruple stored in the packed
words, as produced by `unpack0` and consumed by `pack0`. -/
structure UDateTime where
  precision : Precision
  gnd : GND
  second : Nat
  nanosecond : Nat
deriving DecidableEq, Repr

/-- `DateTime::spill_eod_second_overflow`: on an in-segment day, cap the
second-of-day at the day length and spill the excess into a second carry.
The day length uses the segment's leap count only when the day offset
equals `duration_days`. -/
def spillEodSecondOverflow (segs : List Segment) (gnd : GND) (second : Nat) : Nat × Nat :=
  let daysFromEpoch := toDay gnd
  match byDay segs daysFromEpoch with
  | some (.inSegment segment) =>
    let dayOffset := daysFromEpoch - segment.start_day
    let leapSeconds := if dayOffset = segment.duration_days then segment.leap_seconds else 0
    let dayLength := (86400 + leapSeconds).toNat
    if dayLength ≤ second then (dayLength, second - dayLength) else (second, 0)
  | _ => (second, 0)

/-- `DateTime::checked_add_years` on the unpacked form. -/
def checkedAddYearsDT (segs : List Segment) (u : UDateTime) (years : Int) :
    Option (UDateTime × Carry) :=
  let p := addYears u.gnd years
  if !isInRange p.1 then none
  else
    let sp := spillEodSecondOverflow segs p.1 u.second
    some (⟨u.precision, p.1, sp.1, u.nanosecond⟩, ⟨if p.2 then 1 else 0, sp.2⟩)

/-- `DateTime::checked_add_days` on the unpacked form: the days carry of
the result is the literal `0` of the source. -/
def checkedAddDaysDT (segs : List Segment) (u : UDateTime) (days : Int) :
    Option (UDateTime × Carry) :=
  match gndAddDays u.gnd days with
  | none => none
  | some gnd =>
    if !isInRange gnd then none
    else
      let sp := spillEodSecondOverflow segs gnd u.second
      some (⟨u.precision, gnd, sp.1, u.nanosecond⟩, ⟨0, sp.2⟩)

/-- `DateTime::checked_add_seconds` on the unpacked form: round-trip
through the seconds instant, preserving precision and nanosecond. -/
def checkedAddSecondsDT (segs : List Segment) (u : UDateTime) (delta : Int) :
    Option UDateTime :=
  match checkedAddSeconds segs (u.gnd, u.second) delta with
  | none => none
  | some p => some ⟨u.precision, p.1, p.2, u.nanosecond⟩

/-- The two failure modes inside `DateTimeWithCarry::checked_apply_carry`:
the `expect` in `add_days` and the `assert_eq!(carry2.days, 0)`. -/
inductive FailKind where
  | addDaysOutOfBounds
  | assertNoDaysCarryFailed
deriving DecidableEq, Repr

/-- Reinterpretation of a `u32` value as `i32`. -/
def u32AsI32 (n : Nat) : Int :=
  let t := n % 4294967296
  if t < 2147483648 then (t : Int) else (t : Int) - 4294967296

/-- Reinterpretation of a `u64` value as `i64`. -/
def u64AsI64 (n : Nat) : Int :=
  let t := n % 18446744073709551616
  if t < 9223372036854775808 then (t : Int) else (t : Int) - 18446744073709551616

/-- `DateTimeWithCarry::checked_apply_carry`, with the two internal
run-time failures made explicit as `Except` errors. -/
def checkedApplyCarry (segs : List Segment) (dt : UDateTime) (carry : Carry) :
    Except FailKind (Option UDateTime) :=
  match checkedAddDaysDT segs dt (u32AsI32 carry.days) with
  | none => .error .addDaysOutOfBounds
  | some p =>
    if p.2.days ≠ 0 then .error .assertNoDaysCarryFailed
    else .ok (checkedAddSecondsDT segs p.1 (u64AsI64 (carry.seconds + p.2.seconds)))

/-- The error type of `DateTimeBuilder::checked_build`. -/
inductive BuildError where
  | invalidDateTime
  | dateTimeOutOfBounds
deriving DecidableEq, Repr

/-- The 23:59 minute-length lookup inside `DateTimeBuilder::checked_build`:
on an in-segment fixed day that is the last day of its segment, the minute
is `(60 + leap_seconds) as u8` (the cast is reduction modulo 256); else 60. -/
def builderMinuteLength (segs : List Segment) (gnd : GND) : Nat :=
  match byDay segs (toDay gnd) with
  | some (.inSegment segment) =>
    if toDay gnd - segment.start_day = segment.duration_days - 1 then
      ((60 + segment.leap_seconds) % 256).toNat
    else 60
  | _ => 60

/-- `DateTimeBuilder::checked_build` with every field supplied: year guard,
date validation via `from_date` (its errors mapped through the `From`
conversion), hour/minute guards, the true minute length via the segment
lookup exactly at 23:59, and the second/subsecond guards. The
`(60 + leap_seconds) as u8` cast is reduction modulo 256. The result is
the `(gnd, second-of-day, nanosecond-of-second)` triple handed to
`DateTime::new`. -/
def checkedBuild (segs : List Segment)
    (year month day hour minute second millisecond microsecond nanosecond : Nat) :
    Except BuildError (GND × Nat × Nat) :=
  if 9999 < year then .error .dateTimeOutOfBounds
  else
    match fromDate year month day with
    | .error .invalidDate => .error .invalidDateTime
    | .error .dateOutOfBounds => .error .dateTimeOutOfBounds
    | .ok gnd =>
      if 24 ≤ hour ∨ 60 ≤ minute then .error .invalidDateTime
      else
        if (if hour ≠ 23 ∨ minute ≠ 59 then 60 else builderMinuteLength segs gnd) ≤ second ∨
            1000 ≤ millisecond ∨ 1000 ≤ microsecond ∨
            1000 ≤ nanosecond then .error .invalidDateTime
        else .ok (gnd, hour * 3600 + minute * 60 + second,
            millisecond * 1000000 + microsecond * 1000 + nanosecond)

/-- The standard Gregorian leap-year rule, as the spec states it. -/
def gregorianLeapYear (y : Nat) : Bool :=
  y % 4 == 0 && (y % 100 != 0 || y % 400 == 0)

/-- The standard month lengths, as the spec states them. -/
def daysInMonth (y mo : Nat) : Nat :=
  if mo = 1 ∨ mo = 3 ∨ mo = 5 ∨ mo = 7 ∨ mo = 8 ∨ mo = 10 ∨ mo = 12 then 31
  else if mo = 4 ∨ mo = 6 ∨ mo = 9 ∨ mo = 11 then 30
  else if gregorianLeapYear y then 29 else 28

/-- The spec's permitted minute length: `60 + L` with `L` the end-of-day
leap count of the date's fixed day, exactly at 23:59; else 60. -/
def minuteLengthSpec (segs : List Segment) (y mo d hour minute : Nat) : Int :=
  if hour = 23 ∧ minute = 59 then
    match fromDate y mo d with
    | .ok g => 60 + eodLeap segs (toDay g)
    | .error _ => 60
  else 60

/-- Every date produced by `fromDay` satisfies the data-model invariants. -/
theorem fromDay_gvalid {d : Int} {g : GND} (h : fromDay d = some g) : GValid g := by
  unfold fromDay at h
  simp only [clampedDivRem, MIN_FIXED_DAY, MAX_FIXED_DAY, OFFSET] at h
  split at h
  · exact absurd h (by simp)
  · rename_i hrange
    simp only [Option.some.injEq] at h
    subst h
    unfold GValid isLeapYear
    simp only [Bool.and_eq_true, beq_iff_eq, Bool.not_eq_true', Bool.and_eq_false_iff,
      bne_eq_false_iff_eq, beq_eq_false_iff_ne, ne_eq]
    rw [Int.fdiv_eq_ediv _ (by norm_num), Int.fmod_eq_emod _ (by norm_num)]
    refine ⟨by omega, by omega, by omega, by omega, by omega, by omega, by omega⟩

/-- Reassembling the fields recovered by `fromDay` gives back the fixed day. -/
theorem toDay_fromDay {d : Int} {g : GND} (h : fromDay d = some g) : toDay g = d := by
  unfold fromDay at h
  simp only [clampedDivRem, MIN_FIXED_DAY, MAX_FIXED_DAY, OFFSET] at h
  split at h
  · exact absurd h (by simp)
  · simp only [Option.some.injEq] at h
    subst h
    unfold toDay OFFSET
    rw [Int.fdiv_eq_ediv _ (by norm_num), Int.fmod_eq_emod _ (by norm_num)]
    simp only
    omega

/-- On a valid normalized date, `fromDay` inverts `toDay`. -/
theorem fromDay_toDay {g : GND} (hv : GValid g) : fromDay (toDay g) = some g := by
  obtain ⟨c, ce, q, y, d⟩ := g
  obtain ⟨h1, h2, h3, h4, h5, h6, h7⟩ := hv
  simp only [isLeapYear, Bool.and_eq_true, beq_iff_eq, Bool.not_eq_true',
    Bool.and_eq_false_iff, bne_eq_false_iff_eq, beq_eq_false_iff_ne, ne_eq] at h7
  simp only at h1 h2 h3 h4 h5 h6
  have h8 : d ≤ 364 ∨ (d = 365 ∧ y = 3 ∧ (¬q = 24 ∨ ce = 3)) := by
    by_cases hd : d = 365
    · exact Or.inr ⟨hd, h7 hd⟩
    · exact Or.inl (by omega)
  unfold fromDay toDay OFFSET MIN_FIXED_DAY MAX_FIXED_DAY
  simp only [clampedDivRem]
  rw [if_neg (by omega)]
  rw [Int.fdiv_eq_ediv _ (by norm_num), Int.fmod_eq_emod _ (by norm_num)]
  simp only [Option.some.injEq, GregorianNormalizedDate.mk.injEq]
  have hXdiv : (c * 146097 + (ce : Int) * 36524 + (q : Int) * 1461 + (y : Int) * 365 +
      (d : Int) + 11017 - 11017) / 146097 = c := by
    rcases h8 with h8 | ⟨h8a, h8b, h8c | h8c⟩ <;> omega
  have hXmod : ((c * 146097 + (ce : Int) * 36524 + (q : Int) * 1461 + (y : Int) * 365 +
      (d : Int) + 11017 - 11017) % 146097).toNat = ce * 36524 + q * 1461 + y * 365 + d := by
    rcases h8 with h8 | ⟨h8a, h8b, h8c | h8c⟩ <;> omega
  rw [hXdiv, hXmod]
  have hce : min ((ce * 36524 + q * 1461 + y * 365 + d) / 36524) 3 = ce := by
    rcases h8 with h8 | ⟨h8a, h8b, h8c | h8c⟩ <;> omega
  rw [hce]
  have hsub : ce * 36524 + q * 1461 + y * 365 + d - ce * 36524 = q * 1461 + y * 365 + d := by
    omega
  rw [hsub]
  have hq : (q * 1461 + y * 365 + d) / 1461 = q := by
    rcases h8 with h8 | ⟨h8a, h8b, h8c | h8c⟩ <;> omega
  have hmod2 : (q * 1461 + y * 365 + d) % 1461 = y * 365 + d := by
    rcases h8 with h8 | ⟨h8a, h8b, h8c | h8c⟩ <;> omega
  rw [hq, hmod2]
  have hy : min ((y * 365 + d) / 365) 3 = y := by
    rcases h8 with h8 | ⟨h8a, h8b, h8c | h8c⟩ <;> omega
  rw [hy]
  refine ⟨rfl, rfl, rfl, rfl, by omega⟩

/-- C1: the fixed-day conversions of GregorianNormalizedDate are mutually
inverse. For every fixed day `d` in `[MIN_FIXED_DAY, MAX_FIXED_DAY]`,
`to_day` of the date returned by `from_day d` yields `d` again, and for
every `GregorianNormalizedDate` satisfying the data-model invariants,
`from_day (to_day g)` returns `g`. -/
theorem fixed_day_conversions_mutually_inverse :
    (∀ d : Int, MIN_FIXED_DAY ≤ d → d ≤ MAX_FIXED_DAY →
      (fromDay d).map toDay = some d) ∧
    (∀ g : GND, GValid g → fromDay (toDay g) = some g) := by
  constructor
  · intro d hlo hhi
    have hsome : ∃ g, fromDay d = some g := by
      unfold fromDay
      rw [if_neg (by omega)]
      exact ⟨_, rfl⟩
    obtain ⟨g, hg⟩ := hsome
    rw [hg]
    simpa using toDay_fromDay hg
  · intro g hv
    exact fromDay_toDay hv

/-- Witness for C1 at the concrete fixed day 0 (1970-01-01) and the
concrete normalized date of 2000-03-01. -/
theorem fixed_day_conversions_witness :
    (fromDay 0).map toDay = some 0 ∧ fromDay (toDay ⟨0, 0, 0, 0, 0⟩) = some ⟨0, 0, 0, 0, 0⟩ :=
  ⟨fixed_day_conversions_mutually_inverse.1 0 (by decide) (by decide),
   fixed_day_conversions_mutually_inverse.2 ⟨0, 0, 0, 0, 0⟩ (by decide)⟩

/-- C3: `from_day` computes exactly the four-step decomposition of the spec
(floor div-mod by 146097, clamped div-rem by 36524 with maximum quotient 3,
div-mod by 1461, clamped div-rem by 365 with maximum quotient 3, applied to
`d - 11017`), and returns `none` exactly when the fixed day lies outside
`[MIN_FIXED_DAY, MAX_FIXED_DAY]`, the domain of plus or minus 128 cycles of
146097 days around the offset 11017. -/
theorem from_day_is_spec_decomposition :
    (∀ d : Int, fromDay d = fromDaySpec d ∧
      (fromDay d = none ↔ d < MIN_FIXED_DAY ∨ MAX_FIXED_DAY < d)) ∧
    MIN_FIXED_DAY = 11017 - 128 * 146097 ∧ MAX_FIXED_DAY = 11017 + 128 * 146097 - 1 := by
  refine ⟨fun d => ⟨?_, ?_⟩, by decide, by decide⟩
  · unfold fromDay fromDaySpec OFFSET
    by_cases h : d < MIN_FIXED_DAY ∨ MAX_FIXED_DAY < d
    · rw [if_pos h, if_neg (by omega)]
    · rw [if_neg h, if_pos (by omega)]
  · unfold fromDay
    by_cases h : d < MIN_FIXED_DAY ∨ MAX_FIXED_DAY < d
    · rw [if_pos h]
      simp [h]
    · rw [if_neg h]
      simp only [reduceCtorEq, false_iff]
      omega

/-- C8 counterexample: `div_rem_ceil(5, 2)` evaluates to `(2, 1)`, whose
quotient is the floor of `5 / 2`, not the ceiling `3` required by the spec
(written here as the negated floor division of the negation). -/
theorem div_rem_ceil_not_ceiling :
    divRemCeil 5 2 = (2, 1) ∧ (divRemCeil 5 2).1 ≠ -((-5 : Int).fdiv 2) := by
  decide

/-- C2 failing input: packing the in-range nanosecond value 65536 (with any
precision, date and second) and unpacking returns nanosecond 0, because
`pack0` shifts the masked high nanosecond bits by 48 places, pushing bits
16..30 past bit 63 of the `u64`, where they are discarded. -/
theorem pack_unpack_drops_nanosecond :
    65536 < 1000000000 ∧
    unpack (pack Precision.nanoseconds ⟨0, 0, 0, 0, 0⟩ 0 65536).1
        (pack Precision.nanoseconds ⟨0, 0, 0, 0, 0⟩ 0 65536).2 =
      (Precision.nanoseconds, ⟨0, 0, 0, 0, 0⟩, 0, 0) := by
  constructor
  · decide
  · rfl

/-- C9 failing input: on a one-element sequence, `advance_by 1` invoked at
the End sentinel (position 2) underflows `len - pos` and panics instead of
saturating, and `revert_by 1` at the Start sentinel (position 0) underflows
`pos - 1` and panics instead of saturating. -/
theorem cursor_sentinel_underflow :
    advanceBy 1 2 1 = none ∧ revertBy 1 0 1 = none := by
  decide

/-! Lemmas about well-formed segment chains. -/

theorem chainFrom_cons {d i : Int} {s : Segment} {rest : List Segment}
    (h : chainFrom d i (s :: rest) = true) :
    s.start_day = d ∧ s.start_instant = i ∧ 1 ≤ s.duration_days ∧
      -127 ≤ s.leap_seconds ∧ s.leap_seconds ≤ 127 ∧
      chainFrom (d + s.duration_days) (i + 86400 * s.duration_days + s.leap_seconds) rest
        = true := by
  simp only [chainFrom, Bool.and_eq_true, decide_eq_true_eq] at h
  tauto

theorem chain_mem_facts {s : Segment} {segs : List Segment} :
    ∀ {d i : Int}, chainFrom d i segs = true → s ∈ segs →
      d ≤ s.start_day ∧ i ≤ s.start_instant ∧ 1 ≤ s.duration_days ∧
        -127 ≤ s.leap_seconds ∧ s.leap_seconds ≤ 127 := by
  induction segs with
  | nil => intro d i _ hm; cases hm
  | cons a rest ih =>
    intro d i h hm
    obtain ⟨h1, h2, h3, h4, h5, h6⟩ := chainFrom_cons h
    rcases List.mem_cons.mp hm with rfl | hm
    · exact ⟨by omega, by omega, h3, h4, h5⟩
    · have := ih h6 hm
      refine ⟨by omega, by omega, this.2.2.1, this.2.2.2.1, this.2.2.2.2⟩

theorem chain_findDay_complete {day : Int} {s : Segment} {segs : List Segment} :
    ∀ {d i : Int}, chainFrom d i segs = true → s ∈ segs → containsDay s day = true →
      segs.find? (fun x => containsDay x day) = some s := by
  induction segs with
  | nil => intro _ _ _ hm; cases hm
  | cons a rest ih =>
    intro d i h hm hc
    obtain ⟨h1, h2, h3, h4, h5, h6⟩ := chainFrom_cons h
    rcases List.mem_cons.mp hm with rfl | hm
    · exact List.find?_cons_of_pos _ hc
    · have hlb := (chain_mem_facts h6 hm).1
      simp only [containsDay, Segment.endDay, Bool.and_eq_true, decide_eq_true_eq] at hc
      have hca : ¬(containsDay a day = true) := by
        simp only [containsDay, Segment.endDay, Bool.and_eq_true, decide_eq_true_eq]
        omega
      have heq : List.find? (fun x => containsDay x day) (a :: rest)
          = List.find? (fun x => containsDay x day) rest := List.find?_cons_of_neg rest hca
      rw [heq]
      exact ih h6 hm (by simp only [containsDay, Segment.endDay, Bool.and_eq_true,
        decide_eq_true_eq]; omega)

theorem chain_findInstant_complete {j : Int} {s : Segment} {segs : List Segment} :
    ∀ {d i : Int}, chainFrom d i segs = true → s ∈ segs → containsInstant s j = true →
      segs.find? (fun x => containsInstant x j) = some s := by
  induction segs with
  | nil => intro _ _ _ hm; cases hm
  | cons a rest ih =>
    intro d i h hm hc
    obtain ⟨h1, h2, h3, h4, h5, h6⟩ := chainFrom_cons h
    rcases List.mem_cons.mp hm with rfl | hm
    · exact List.find?_cons_of_pos _ hc
    · have hlb := (chain_mem_facts h6 hm).2.1
      simp only [containsInstant, Segment.endInstant, Bool.and_eq_true, decide_eq_true_eq] at hc
      have hca : ¬(containsInstant a j = true) := by
        simp only [containsInstant, Segment.endInstant, Bool.and_eq_true, decide_eq_true_eq]
        omega
      have heq : List.find? (fun x => containsInstant x j) (a :: rest)
          = List.find? (fun x => containsInstant x j) rest := List.find?_cons_of_neg rest hca
      rw [heq]
      exact ih h6 hm (by simp only [containsInstant, Segment.endInstant, Bool.and_eq_true,
        decide_eq_true_eq]; omega)

theorem chain_findDay_none {day : Int} {last : Segment} {segs : List Segment} :
    ∀ {d i : Int}, chainFrom d i segs = true → segs.getLast? = some last →
      segs.find? (fun x => containsDay x day) = none → d ≤ day →
      last.endDay ≤ day := by
  induction segs with
  | nil => intro d i _ hl; simp at hl
  | cons a rest ih =>
    intro d i h hl hf hd
    obtain ⟨h1, h2, h3, h4, h5, h6⟩ := chainFrom_cons h
    have hfa : ¬(containsDay a day = true) :=
      List.find?_eq_none.mp hf a (List.mem_cons_self a rest)
    simp only [containsDay, Segment.endDay, Bool.and_eq_true, decide_eq_true_eq] at hfa
    have hf2 : rest.find? (fun x => containsDay x day) = none := by
      have heq : List.find? (fun x => containsDay x day) (a :: rest)
          = List.find? (fun x => containsDay x day) rest :=
        List.find?_cons_of_neg rest (by simp only [containsDay, Segment.endDay,
          Bool.and_eq_true, decide_eq_true_eq]; omega)
      rw [heq] at hf
      exact hf
    cases rest with
    | nil =>
      simp only [List.getLast?_singleton, Option.some.injEq] at hl
      subst hl
      simp only [Segment.endDay]
      omega
    | cons b rest2 =>
      have hl2 : (b :: rest2).getLast? = some last := by
        rwa [List.getLast?_cons_cons] at hl
      exact ih h6 hl2 hf2 (by omega)

theorem chain_findInstant_none {j : Int} {last : Segment} {segs : List Segment} :
    ∀ {d i : Int}, chainFrom d i segs = true → segs.getLast? = some last →
      segs.find? (fun x => containsInstant x j) = none → i ≤ j →
      last.endInstant ≤ j := by
  induction segs with
  | nil => intro d i _ hl; simp at hl
  | cons a rest ih =>
    intro d i h hl hf hd
    obtain ⟨h1, h2, h3, h4, h5, h6⟩ := chainFrom_cons h
    have hfa : ¬(containsInstant a j = true) :=
      List.find?_eq_none.mp hf a (List.mem_cons_self a rest)
    simp only [containsInstant, Segment.endInstant, Bool.and_eq_true, decide_eq_true_eq] at hfa
    have hf2 : rest.find? (fun x => containsInstant x j) = none := by
      have heq : List.find? (fun x => containsInstant x j) (a :: rest)
          = List.find? (fun x => containsInstant x j) rest :=
        List.find?_cons_of_neg rest (by simp only [containsInstant, Segment.endInstant,
          Bool.and_eq_true, decide_eq_true_eq]; omega)
      rw [heq] at hf
      exact hf
    cases rest with
    | nil =>
      simp only [List.getLast?_singleton, Option.some.injEq] at hl
      subst hl
      simp only [Segment.endInstant]
      omega
    | cons b rest2 =>
      have hl2 : (b :: rest2).getLast? = some last := by
        rwa [List.getLast?_cons_cons] at hl
      exact ih h6 hl2 hf2 (by omega)

theorem chain_mem_end_le {s last : Segment} {segs : List Segment} :
    ∀ {d i : Int}, chainFrom d i segs = true → segs.getLast? = some last → s ∈ segs →
      s.endDay ≤ last.endDay ∧ s.endInstant ≤ last.endInstant := by
  induction segs with
  | nil => intro d i _ hl; simp at hl
  | cons a rest ih =>
    intro d i h hl hm
    obtain ⟨h1, h2, h3, h4, h5, h6⟩ := chainFrom_cons h
    cases rest with
    | nil =>
      simp only [List.getLast?_singleton, Option.some.injEq] at hl
      subst hl
      rcases List.mem_cons.mp hm with rfl | hm
      · exact ⟨le_refl _, le_refl _⟩
      · cases hm
    | cons b rest2 =>
      have hl2 : (b :: rest2).getLast? = some last := by
        rwa [List.getLast?_cons_cons] at hl
      have hlastmem : last ∈ b :: rest2 := List.mem_of_getLast?_eq_some hl2
      have hlastfacts := chain_mem_facts h6 hlastmem
      rcases List.mem_cons.mp hm with rfl | hm
      · constructor
        · simp only [Segment.endDay] at *
          omega
        · simp only [Segment.endInstant] at *
          omega
      · exact ih h6 hl2 hm

/-! Lookup characterizations over well-formed chains. -/

theorem byDay_eq_in {segs : List Segment} (hchain : chainFrom 0 0 segs = true)
    {s : Segment} {day : Int} (hmem : s ∈ segs) (hc : containsDay s day = true) :
    byDay segs day = some (.inSegment s) := by
  cases segs with
  | nil => cases hmem
  | cons first rest =>
    obtain ⟨h1, h2, h3, h4, h5, h6⟩ := chainFrom_cons hchain
    have hs := chain_mem_facts hchain hmem
    have hc2 := hc
    simp only [containsDay, Segment.endDay, Bool.and_eq_true, decide_eq_true_eq] at hc2
    simp only [byDay]
    rw [if_neg (by omega), chain_findDay_complete hchain hmem hc]

theorem byDay_eq_after {segs : List Segment} (hchain : chainFrom 0 0 segs = true)
    {last : Segment} {day : Int} (hl : segs.getLast? = some last)
    (hday : last.endDay ≤ day) : byDay segs day = some (.afterLast last) := by
  cases segs with
  | nil => simp at hl
  | cons first rest =>
    obtain ⟨h1, h2, h3, h4, h5, h6⟩ := chainFrom_cons hchain
    have hlastmem := List.mem_of_getLast?_eq_some hl
    have hlf := chain_mem_facts hchain hlastmem
    have hday0 : 0 ≤ day := by
      simp only [Segment.endDay] at hday
      omega
    have hfnone : (first :: rest).find? (fun x => containsDay x day) = none := by
      rw [List.find?_eq_none]
      intro s hs
      have hse := (chain_mem_end_le hchain hl hs).1
      simp only [containsDay, Segment.endDay, Bool.and_eq_true, decide_eq_true_eq, not_and,
        not_lt]
      simp only [Segment.endDay] at hse hday
      omega
    simp only [byDay]
    rw [if_neg (by omega), hfnone, hl]
    rfl

theorem byDay_eq_before {segs : List Segment} {first : Segment} {rest : List Segment}
    {day : Int} (hseg : segs = first :: rest) (hday : day < first.start_day) :
    byDay segs day = some (.beforeFirst first) := by
  subst hseg
  simp only [byDay]
  rw [if_pos hday]

theorem byInstant_in_sound {segs : List Segment} {i : Int} {seg : Segment}
    (h : byInstant segs i = some (.inSegment seg)) :
    seg ∈ segs ∧ containsInstant seg i = true := by
  cases segs with
  | nil => simp [byInstant] at h
  | cons first rest =>
    simp only [byInstant] at h
    split at h
    · simp at h
    · cases hfind : List.find? (fun s => containsInstant s i) (first :: rest) with
      | some s =>
        rw [hfind] at h
        simp only [Option.some.injEq, SegmentLookupResult.inSegment.injEq] at h
        have hps := @List.find?_some _ (fun x => containsInstant x i) s _ hfind
        subst h
        exact ⟨List.mem_of_find?_eq_some hfind, by simpa using hps⟩
      | none =>
        rw [hfind] at h
        cases hl : (first :: rest).getLast? with
        | none => rw [hl] at h; simp at h
        | some last => rw [hl] at h; simp at h

theorem byInstant_before_sound {segs : List Segment} {i : Int} {f : Segment}
    (h : byInstant segs i = some (.beforeFirst f)) :
    ∃ rest, segs = f :: rest ∧ i < f.start_instant := by
  cases segs with
  | nil => simp [byInstant] at h
  | cons first rest =>
    simp only [byInstant] at h
    split at h
    · rename_i hlt
      simp only [Option.some.injEq, SegmentLookupResult.beforeFirst.injEq] at h
      subst h
      exact ⟨rest, rfl, hlt⟩
    · cases hfind : List.find? (fun s => containsInstant s i) (first :: rest) with
      | some s => rw [hfind] at h; simp at h
      | none =>
        rw [hfind] at h
        cases hl : (first :: rest).getLast? with
        | none => rw [hl] at h; simp at h
        | some last => rw [hl] at h; simp at h

theorem byInstant_after_sound {segs : List Segment} {i : Int} {last : Segment}
    (h : byInstant segs i = some (.afterLast last)) :
    segs.getLast? = some last ∧ segs.find? (fun s => containsInstant s i) = none ∧
      ∃ first rest, segs = first :: rest ∧ ¬i < first.start_instant := by
  cases segs with
  | nil => simp [byInstant] at h
  | cons first rest =>
    simp only [byInstant] at h
    split at h
    · simp at h
    · rename_i hge
      cases hfind : List.find? (fun s => containsInstant s i) (first :: rest) with
      | some s => rw [hfind] at h; simp at h
      | none =>
        rw [hfind] at h
        cases hl : (first :: rest).getLast? with
        | none => rw [hl] at h; simp at h
        | some l =>
          rw [hl] at h
          simp at h
          subst h
          exact ⟨rfl, rfl, first, rest, rfl, hge⟩

/-! Round trip of the instant conversions over a well-formed chronology. -/

theorem wf_destruct {segs : List Segment} (hwf : WFSegments segs = true) :
    ∃ first rest last, segs = first :: rest ∧ chainFrom 0 0 segs = true ∧
      segs.getLast? = some last ∧ last.endDay ≤ MAX_DT_FIXED_DAY := by
  unfold WFSegments at hwf
  cases segs with
  | nil => simp at hwf
  | cons first rest =>
    simp only [List.isEmpty_cons, Bool.not_false, Bool.true_and, Bool.and_eq_true] at hwf
    obtain ⟨hchain, hlast⟩ := hwf
    cases hl : (first :: rest).getLast? with
    | none => rw [hl] at hlast; simp at hlast
    | some last =>
      rw [hl] at hlast
      simp only [decide_eq_true_eq] at hlast
      exact ⟨first, rest, last, rfl, hchain, rfl, hlast⟩

theorem toSecond_of_fromSecond {segs : List Segment} (hwf : WFSegments segs = true)
    {i : Int} {g : GND} {sod : Nat}
    (h : fromSecondInstant segs i = some (g, sod)) :
    toSecondInstant segs g sod = some i := by
  obtain ⟨first, rest, last, hseg, hchain, hlast, hlastle⟩ := wf_destruct hwf
  have hhead := chainFrom_cons (hseg ▸ hchain)
  obtain ⟨hf1, hf2, hf3, hf4, hf5, hf6⟩ := hhead
  cases hby : byInstant segs i with
  | none =>
    simp only [fromSecondInstant, hby] at h
    exact Option.noConfusion h
  | some r =>
    cases r with
    | inSegment seg =>
      simp only [fromSecondInstant, hby] at h
      obtain ⟨hmem, hcont⟩ := byInstant_in_sound hby
      obtain ⟨hsd, hsi, hdur, hls1, hls2⟩ := chain_mem_facts hchain hmem
      simp only [containsInstant, Segment.endInstant, Bool.and_eq_true,
        decide_eq_true_eq] at hcont
      split at h
      · rename_i hov
        split at h
        · simp at h
        · rename_i hexact
          cases hfd : fromDay (seg.start_day + (seg.duration_days - 1)) with
          | none => rw [hfd] at h; simp at h
          | some g0 =>
            rw [hfd] at h
            simp only [Option.some.injEq, Prod.mk.injEq] at h
            obtain ⟨hg, hsod⟩ := h
            subst hg
            have htd : toDay g0 = seg.start_day + (seg.duration_days - 1) := toDay_fromDay hfd
            have hbd : byDay segs (toDay g0) = some (.inSegment seg) := by
              apply byDay_eq_in hchain hmem
              simp only [containsDay, Segment.endDay, Bool.and_eq_true, decide_eq_true_eq]
              omega
            simp only [toSecondInstant, hbd, Option.some.injEq]
            omega
      · rename_i hov
        cases hfd : fromDay (seg.start_day + ((i - seg.start_instant).toNat / 86400 : Nat)) with
        | none => rw [hfd] at h; simp at h
        | some g0 =>
          rw [hfd] at h
          simp only [Option.some.injEq, Prod.mk.injEq] at h
          obtain ⟨hg, hsod⟩ := h
          subst hg
          have htd : toDay g0 = seg.start_day + ((i - seg.start_instant).toNat / 86400 : Nat) :=
            toDay_fromDay hfd
          have hbd : byDay segs (toDay g0) = some (.inSegment seg) := by
            apply byDay_eq_in hchain hmem
            simp only [containsDay, Segment.endDay, Bool.and_eq_true, decide_eq_true_eq]
            omega
          simp only [toSecondInstant, hbd, Option.some.injEq]
          omega
    | beforeFirst f =>
      simp only [fromSecondInstant, hby] at h
      obtain ⟨rest2, hseg2, hlt⟩ := byInstant_before_sound hby
      rw [hseg] at hseg2
      injection hseg2 with hfe hre
      subst hfe
      split at h
      · rename_i hr
        split at h
        · simp at h
        · rename_i hmin
          cases hfd : fromDay (first.start_day - ((first.start_instant - i).toNat / 86400 + 1 : Nat)) with
          | none => rw [hfd] at h; simp at h
          | some g0 =>
            rw [hfd] at h
            simp only [Option.some.injEq, Prod.mk.injEq] at h
            obtain ⟨hg, hsod⟩ := h
            subst hg
            have htd : toDay g0
                = first.start_day - ((first.start_instant - i).toNat / 86400 + 1 : Nat) :=
              toDay_fromDay hfd
            have hbd : byDay segs (toDay g0) = some (.beforeFirst first) := by
              apply byDay_eq_before hseg
              omega
            simp only [toSecondInstant, hbd, Option.some.injEq]
            omega
      · rename_i hr
        split at h
        · simp at h
        · rename_i hmin
          cases hfd : fromDay (first.start_day - ((first.start_instant - i).toNat / 86400 : Nat)) with
          | none => rw [hfd] at h; simp at h
          | some g0 =>
            rw [hfd] at h
            simp only [Option.some.injEq, Prod.mk.injEq] at h
            obtain ⟨hg, hsod⟩ := h
            subst hg
            have htd : toDay g0
                = first.start_day - ((first.start_instant - i).toNat / 86400 : Nat) :=
              toDay_fromDay hfd
            have hbd : byDay segs (toDay g0) = some (.beforeFirst first) := by
              apply byDay_eq_before hseg
              omega
            simp only [toSecondInstant, hbd, Option.some.injEq]
            omega
    | afterLast l =>
      simp only [fromSecondInstant, hby] at h
      obtain ⟨hl2, hfindnone, first2, rest2, hseg2, hge⟩ := byInstant_after_sound hby
      have hll : l = last := by
        rw [hl2] at hlast
        injection hlast
      subst hll
      rw [hseg] at hseg2
      injection hseg2 with hfe hre
      subst hfe
      have hi0 : (0 : Int) ≤ i := by omega
      have hend : l.endInstant ≤ i := chain_findInstant_none hchain hl2 hfindnone hi0
      obtain ⟨hld, hli, hldur, hlp1, hlp2⟩ := chain_mem_facts hchain
        (List.mem_of_getLast?_eq_some hl2)
      split at h
      · simp at h
      · rename_i hmax
        cases hfd : fromDay (l.endDay + ((i - l.endInstant).toNat / 86400 : Nat)) with
        | none => rw [hfd] at h; simp at h
        | some g0 =>
          rw [hfd] at h
          simp only [Option.some.injEq, Prod.mk.injEq] at h
          obtain ⟨hg, hsod⟩ := h
          subst hg
          have htd : toDay g0 = l.endDay + ((i - l.endInstant).toNat / 86400 : Nat) :=
            toDay_fromDay hfd
          have hbd : byDay segs (toDay g0) = some (.afterLast l) := by
            apply byDay_eq_after hchain hl2
            omega
          simp only [toSecondInstant, hbd, Option.some.injEq]
          omega

/-! Boundary lemmas for segment chains. -/

theorem chain_last_end {segs : List Segment} :
    ∀ {d i : Int} {last : Segment}, chainFrom d i segs = true →
      segs.getLast? = some last →
      d ≤ last.endDay ∧ 86273 * (last.endDay - d) ≤ last.endInstant - i ∧
        last.endInstant - i ≤ 86527 * (last.endDay - d) := by
  induction segs with
  | nil => intro d i last _ hl; simp at hl
  | cons a rest ih =>
    intro d i last h hl
    obtain ⟨h1, h2, h3, h4, h5, h6⟩ := chainFrom_cons h
    cases rest with
    | nil =>
      simp only [List.getLast?_singleton, Option.some.injEq] at hl
      subst hl
      simp only [Segment.endDay, Segment.endInstant]
      constructor
      · omega
      · constructor <;> nlinarith [h3, h4, h5, h1, h2]
    | cons b rest2 =>
      have hl2 : (b :: rest2).getLast? = some last := by
        rwa [List.getLast?_cons_cons] at hl
      have := ih h6 hl2
      omega

theorem chain_mem_last {segs : List Segment} :
    ∀ {d i : Int} {s last : Segment}, chainFrom d i segs = true →
      segs.getLast? = some last → s ∈ segs →
      s.endDay ≤ last.endDay ∧ 86273 * (last.endDay - s.endDay) ≤
        last.endInstant - s.endInstant ∧
        last.endInstant - s.endInstant ≤ 86527 * (last.endDay - s.endDay) := by
  induction segs with
  | nil => intro d i s last _ hl; simp at hl
  | cons a rest ih =>
    intro d i s last h hl hm
    obtain ⟨h1, h2, h3, h4, h5, h6⟩ := chainFrom_cons h
    cases rest with
    | nil =>
      simp only [List.getLast?_singleton, Option.some.injEq] at hl
      subst hl
      rcases List.mem_cons.mp hm with rfl | hm
      · omega
      · cases hm
    | cons b rest2 =>
      have hl2 : (b :: rest2).getLast? = some last := by
        rwa [List.getLast?_cons_cons] at hl
      rcases List.mem_cons.mp hm with rfl | hm
      · have := chain_last_end h6 hl2
        simp only [Segment.endDay, Segment.endInstant] at *
        omega
      · exact ih h6 hl2 hm

theorem chain_at_boundary {segs : List Segment} :
    ∀ {d i : Int} {s t : Segment}, chainFrom d i segs = true →
      s ∈ segs → t ∈ segs → containsInstant t s.endInstant = true →
      t.start_instant = s.endInstant ∧ t.start_day = s.endDay := by
  induction segs with
  | nil => intro d i s t _ hs; cases hs
  | cons a rest ih =>
    intro d i s t h hs ht hc
    obtain ⟨h1, h2, h3, h4, h5, h6⟩ := chainFrom_cons h
    simp only [containsInstant, Segment.endInstant, Bool.and_eq_true, decide_eq_true_eq] at hc
    rcases List.mem_cons.mp hs with hsa | hs2
    · subst hsa
      rcases List.mem_cons.mp ht with hta | ht2
      · subst hta
        exfalso
        omega
      · cases rest with
        | nil => cases ht2
        | cons b rest2 =>
          obtain ⟨hb1, hb2, hb3, hb4, hb5, hb6⟩ := chainFrom_cons h6
          rcases List.mem_cons.mp ht2 with htb | ht3
          · subst htb
            simp only [Segment.endDay, Segment.endInstant]
            omega
          · exfalso
            have hfct := chain_mem_facts hb6 ht3
            omega
    · rcases List.mem_cons.mp ht with hta | ht2
      · subst hta
        exfalso
        have hfs := chain_mem_facts h6 hs2
        omega
      · exact ih h6 hs2 ht2 (by simp only [containsInstant, Segment.endInstant,
          Bool.and_eq_true, decide_eq_true_eq]; omega)

theorem byInstant_eq_in {segs : List Segment} (hchain : chainFrom 0 0 segs = true)
    {s : Segment} {j : Int} (hmem : s ∈ segs) (hc : containsInstant s j = true) :
    byInstant segs j = some (.inSegment s) := by
  cases segs with
  | nil => cases hmem
  | cons first rest =>
    obtain ⟨h1, h2, h3, h4, h5, h6⟩ := chainFrom_cons hchain
    have hs := chain_mem_facts hchain hmem
    have hc2 := hc
    simp only [containsInstant, Segment.endInstant, Bool.and_eq_true, decide_eq_true_eq] at hc2
    simp only [byInstant]
    rw [if_neg (by omega), chain_findInstant_complete hchain hmem hc]

theorem byInstant_eq_after {segs : List Segment} (hchain : chainFrom 0 0 segs = true)
    {last : Segment} {j : Int} (hl : segs.getLast? = some last)
    (hday : last.endInstant ≤ j) : byInstant segs j = some (.afterLast last) := by
  cases segs with
  | nil => simp at hl
  | cons first rest =>
    obtain ⟨h1, h2, h3, h4, h5, h6⟩ := chainFrom_cons hchain
    have hlastmem := List.mem_of_getLast?_eq_some hl
    have hlf := chain_mem_facts hchain hlastmem
    have hj0 : 0 ≤ j := by
      simp only [Segment.endInstant] at hday
      omega
    have hfnone : (first :: rest).find? (fun x => containsInstant x j) = none := by
      rw [List.find?_eq_none]
      intro s hs
      have hse := chain_mem_last hchain hl hs
      have hsf := chain_mem_facts hchain hs
      simp only [containsInstant, Segment.endInstant, Bool.and_eq_true, decide_eq_true_eq,
        not_and, not_lt]
      simp only [Segment.endDay, Segment.endInstant] at hse hday
      omega
    simp only [byInstant]
    rw [if_neg (by omega), hfnone, hl]
    rfl

/-- Evaluating `from_second_instant` exactly at a segment boundary lands on
midnight of the segment's end day. -/
theorem fromSecond_at_endInstant {segs : List Segment} (hwf : WFSegments segs = true)
    {s : Segment} (hmem : s ∈ segs) :
    ∃ g1, fromDay s.endDay = some g1 ∧
      fromSecondInstant segs s.endInstant = some (g1, 0) := by
  obtain ⟨first, rest, last, hseg, hchain, hlast, hlastle⟩ := wf_destruct hwf
  have hsf := chain_mem_facts hchain hmem
  have hml := chain_mem_last hchain hlast hmem
  have hfd : ∃ g1, fromDay s.endDay = some g1 := by
    unfold fromDay
    rw [if_neg (by
      unfold MIN_FIXED_DAY MAX_FIXED_DAY
      unfold MAX_DT_FIXED_DAY at hlastle
      simp only [Segment.endDay] at *
      omega)]
    exact ⟨_, rfl⟩
  obtain ⟨g1, hg1⟩ := hfd
  refine ⟨g1, hg1, ?_⟩
  cases hfind : segs.find? (fun x => containsInstant x s.endInstant) with
  | some t =>
    have htmem := List.mem_of_find?_eq_some hfind
    have htp := @List.find?_some _ (fun x => containsInstant x s.endInstant) t _ hfind
    have hb := chain_at_boundary hchain hmem htmem (by simpa using htp)
    have htf := chain_mem_facts hchain htmem
    have hbyi : byInstant segs s.endInstant = some (.inSegment t) :=
      byInstant_eq_in hchain htmem (by simpa using htp)
    simp only [fromSecondInstant, hbyi]
    rw [if_neg (by omega)]
    have hidx : t.start_day + (((s.endInstant - t.start_instant).toNat / 86400 : Nat) : Int)
        = s.endDay := by omega
    rw [hidx, hg1]
    simp only [Option.some.injEq, Prod.mk.injEq]
    exact ⟨by trivial, by omega⟩
  | none =>
    have hge0 : (0 : Int) ≤ s.endInstant := by
      simp only [Segment.endInstant]
      omega
    have hend := chain_findInstant_none hchain hlast hfind hge0
    have hbyi : byInstant segs s.endInstant = some (.afterLast last) :=
      byInstant_eq_after hchain hlast (by omega)
    simp only [fromSecondInstant, hbyi]
    rw [if_neg (by
      unfold MAX_DT_FIXED_DAY
      unfold MAX_DT_FIXED_DAY at hlastle
      omega)]
    have hidx : last.endDay + (((s.endInstant - last.endInstant).toNat / 86400 : Nat) : Int)
        = s.endDay := by omega
    rw [hidx, hg1]
    simp only [Option.some.injEq, Prod.mk.injEq]
    exact ⟨by trivial, by omega⟩

/-- C5: second addition on DateTime is associative in its delta. Whenever
`checked_add_seconds t (d1 + d2)`, `checked_add_seconds t d1` and
`checked_add_seconds (checked_add_seconds t d1) d2` all return `Some`,
the one-step and two-step results agree. -/
theorem add_seconds_delta_associative {segs : List Segment} (hwf : WFSegments segs = true)
    {t v u w : GND × Nat} {d1 d2 : Int}
    (hu : checkedAddSeconds segs t (d1 + d2) = some u)
    (hv : checkedAddSeconds segs t d1 = some v)
    (hw : checkedAddSeconds segs v d2 = some w) :
    u = w := by
  cases hti : toSecondInstant segs t.1 t.2 with
  | none =>
    simp only [checkedAddSeconds, hti] at hv
    exact Option.noConfusion hv
  | some i =>
    simp only [checkedAddSeconds, hti] at hu hv
    cases hc1 : i64CheckedAdd i d1 with
    | none =>
      simp only [hc1] at hv
      exact Option.noConfusion hv
    | some j1 =>
      simp only [hc1] at hv
      have hj1 : j1 = i + d1 := by
        unfold i64CheckedAdd at hc1
        split at hc1
        · exact (Option.some.inj hc1).symm
        · exact Option.noConfusion hc1
      subst hj1
      have htv : toSecondInstant segs v.1 v.2 = some (i + d1) :=
        toSecond_of_fromSecond hwf hv
      simp only [checkedAddSeconds, htv] at hw
      cases hc2 : i64CheckedAdd (i + d1) d2 with
      | none =>
        simp only [hc2] at hw
        exact Option.noConfusion hw
      | some j2 =>
        simp only [hc2] at hw
        have hj2 : j2 = i + d1 + d2 := by
          unfold i64CheckedAdd at hc2
          split at hc2
          · exact (Option.some.inj hc2).symm
          · exact Option.noConfusion hc2
        subst hj2
        cases hc3 : i64CheckedAdd i (d1 + d2) with
        | none =>
          simp only [hc3] at hu
          exact Option.noConfusion hu
        | some j3 =>
          simp only [hc3] at hu
          have hj3 : j3 = i + d1 + d2 := by
            unfold i64CheckedAdd at hc3
            split at hc3
            · rw [← Option.some.inj hc3]
              ring
            · exact Option.noConfusion hc3
          subst hj3
          rw [hu] at hw
          exact Option.some.inj hw

/-- C4: for every leap-second segment with leap count 1 there is, at
second precision, exactly one representable DateTime whose day lies in the
segment and which reads 23:59:60, namely second-of-day 86400 on day
`end_day - 1`; `add_seconds 1` maps 23:59:59 on that day to it, and maps it
to 00:00:00 on day `end_day`. -/
theorem leap_second_unique_and_add_seconds {segs : List Segment} {s : Segment}
    (hwf : WFSegments segs = true) (hmem : s ∈ segs) (hleap : s.leap_seconds = 1) :
    ∃ g0, fromDay (s.endDay - 1) = some g0 ∧ toDay g0 = s.endDay - 1 ∧
      ValidSDT segs g0 86400 ∧
      hourOf 86400 = 23 ∧ minuteOf 86400 = 59 ∧ secondOf 86400 = 60 ∧
      (∀ (g : GND) (sod : Nat), ValidSDT segs g sod →
        s.start_day ≤ toDay g → toDay g < s.endDay →
        hourOf sod = 23 → minuteOf sod = 59 → secondOf sod = 60 →
        g = g0 ∧ sod = 86400) ∧
      checkedAddSeconds segs (g0, 86399) 1 = some (g0, 86400) ∧
      (∃ g1, fromDay s.endDay = some g1 ∧ toDay g1 = s.endDay ∧
        checkedAddSeconds segs (g0, 86400) 1 = some (g1, 0)) := by
  obtain ⟨first, rest, last, hseg, hchain, hlast, hlastle⟩ := wf_destruct hwf
  have hsf := chain_mem_facts hchain hmem
  have hml := chain_mem_last hchain hlast hmem
  have hle := chain_last_end hchain hlast
  have hmaxd : last.endDay ≤ 2932896 := by
    unfold MAX_DT_FIXED_DAY at hlastle
    exact hlastle
  have hg0ex : ∃ g0, fromDay (s.endDay - 1) = some g0 := by
    unfold fromDay
    rw [if_neg (by
      unfold MIN_FIXED_DAY MAX_FIXED_DAY
      simp only [Segment.endDay] at *
      omega)]
    exact ⟨_, rfl⟩
  obtain ⟨g0, hg0⟩ := hg0ex
  have htd0 : toDay g0 = s.endDay - 1 := toDay_fromDay hg0
  have hcont0 : containsDay s (s.endDay - 1) = true := by
    simp only [containsDay, Segment.endDay, Bool.and_eq_true, decide_eq_true_eq]
    omega
  have hfind0 : segs.find? (fun x => containsDay x (s.endDay - 1)) = some s :=
    chain_findDay_complete hchain hmem hcont0
  have hbd0 : byDay segs (s.endDay - 1) = some (.inSegment s) :=
    byDay_eq_in hchain hmem hcont0
  have hvalid : ValidSDT segs g0 86400 := by
    refine ⟨fromDay_gvalid hg0, ?_, ?_, ?_⟩
    · rw [htd0]
      unfold MIN_DT_FIXED_DAY
      simp only [Segment.endDay] at *
      omega
    · rw [htd0]
      unfold MAX_DT_FIXED_DAY
      simp only [Segment.endDay] at *
      omega
    · rw [htd0]
      simp only [eodLeap, hfind0]
      rw [if_pos trivial]
      omega
  have huniq : ∀ (g : GND) (sod : Nat), ValidSDT segs g sod →
      s.start_day ≤ toDay g → toDay g < s.endDay →
      hourOf sod = 23 → minuteOf sod = 59 → secondOf sod = 60 →
      g = g0 ∧ sod = 86400 := by
    intro g sod hv hd1 hd2 hh hm hs60
    have hsod : sod = 86400 := by
      unfold secondOf at hs60
      split at hs60 <;> omega
    subst hsod
    obtain ⟨hgv, hminv, hmaxv, hlen⟩ := hv
    have hcg : containsDay s (toDay g) = true := by
      simp only [containsDay, Bool.and_eq_true, decide_eq_true_eq]
      exact ⟨hd1, hd2⟩
    have hfg : segs.find? (fun x => containsDay x (toDay g)) = some s :=
      chain_findDay_complete hchain hmem hcg
    simp only [eodLeap, hfg] at hlen
    split at hlen
    · rename_i hdayeq
      have hfg2 : fromDay (toDay g) = some g := fromDay_toDay hgv
      rw [hdayeq] at hfg2
      exact ⟨Option.some.inj (hfg2.symm.trans hg0), rfl⟩
    · exact absurd hlen (by omega)
  have hi0 : toSecondInstant segs g0 86399
      = some (s.start_instant + (s.duration_days - 1) * 86400 + 86399) := by
    simp only [toSecondInstant, htd0, hbd0]
    simp only [Option.some.injEq, Segment.endDay]
    push_cast
    ring
  have hstep1 : checkedAddSeconds segs (g0, 86399) 1 = some (g0, 86400) := by
    simp only [checkedAddSeconds, hi0]
    have hadd : i64CheckedAdd (s.start_instant + (s.duration_days - 1) * 86400 + 86399) 1
        = some (s.start_instant + s.duration_days * 86400) := by
      unfold i64CheckedAdd
      rw [if_pos (by simp only [Segment.endDay, Segment.endInstant] at *; omega)]
      congr 1
      ring
    simp only [hadd]
    have hci : containsInstant s (s.start_instant + s.duration_days * 86400) = true := by
      simp only [containsInstant, Segment.endInstant, Bool.and_eq_true, decide_eq_true_eq]
      omega
    have hbyi := byInstant_eq_in hchain hmem hci
    simp only [fromSecondInstant, hbyi]
    rw [if_pos (by omega)]
    rw [if_neg (by omega)]
    have hidx : s.start_day + (s.duration_days - 1) = s.endDay - 1 := by
      simp only [Segment.endDay]
      ring
    rw [hidx, hg0]
    simp only [Option.some.injEq, Prod.mk.injEq]
    exact ⟨by trivial, by omega⟩
  have hi1 : toSecondInstant segs g0 86400
      = some (s.start_instant + s.duration_days * 86400) := by
    simp only [toSecondInstant, htd0, hbd0]
    simp only [Option.some.injEq, Segment.endDay]
    push_cast
    ring
  obtain ⟨g1, hg1, hfse⟩ := fromSecond_at_endInstant hwf hmem
  have htd1 : toDay g1 = s.endDay := toDay_fromDay hg1
  have hstep2 : checkedAddSeconds segs (g0, 86400) 1 = some (g1, 0) := by
    simp only [checkedAddSeconds, hi1]
    have hadd : i64CheckedAdd (s.start_instant + s.duration_days * 86400) 1
        = some s.endInstant := by
      unfold i64CheckedAdd
      rw [if_pos (by simp only [Segment.endDay, Segment.endInstant] at *; omega)]
      simp only [Option.some.injEq, Segment.endInstant]
      omega
    simp only [hadd]
    exact hfse
  exact ⟨g0, hg0, htd0, hvalid, by decide, by decide, by decide, huniq, hstep1,
    g1, hg1, htd1, hstep2⟩

/-- Witness for C5 on the UTC chronology: adding 1 + 1 seconds to
2000-03-01 00:00:00 in one step or two steps gives the same DateTime. -/
theorem add_seconds_delta_associative_witness :
    ((⟨0, 0, 0, 0, 0⟩, 2) : GND × Nat) = ((⟨0, 0, 0, 0, 0⟩, 2) : GND × Nat) :=
  @add_seconds_delta_associative utcSegments (by decide)
    (⟨0, 0, 0, 0, 0⟩, 0) (⟨0, 0, 0, 0, 0⟩, 1) (⟨0, 0, 0, 0, 0⟩, 2) (⟨0, 0, 0, 0, 0⟩, 2)
    1 1 (by decide) (by decide) (by decide)

/-- Witness for C4 at the UTC leap-second segment ending on 1999-01-01
(fixed day 10592), whose last day 10591 is 1998-12-31. -/
theorem leap_second_unique_and_add_seconds_witness :
    ∃ g0, fromDay 10591 = some g0 ∧ toDay g0 = 10591 ∧
      ValidSDT utcSegments g0 86400 ∧
      hourOf 86400 = 23 ∧ minuteOf 86400 = 59 ∧ secondOf 86400 = 60 ∧
      (∀ (g : GND) (sod : Nat), ValidSDT utcSegments g sod →
        10043 ≤ toDay g → toDay g < 10592 →
        hourOf sod = 23 → minuteOf sod = 59 → secondOf sod = 60 →
        g = g0 ∧ sod = 86400) ∧
      checkedAddSeconds utcSegments (g0, 86399) 1 = some (g0, 86400) ∧
      (∃ g1, fromDay 10592 = some g1 ∧ toDay g1 = 10592 ∧
        checkedAddSeconds utcSegments (g0, 86400) 1 = some (g1, 0)) :=
  @leap_second_unique_and_add_seconds utcSegments ⟨867715221, 10043, 549, 1, 21⟩
    (by decide) (by decide) rfl

/-- Every successful `checked_add_days` carries zero days: the source
constructs the carry with the literal `days: 0`. -/
theorem checkedAddDaysDT_carry_days {segs : List Segment} {u : UDateTime} {days : Int}
    {r : UDateTime × Carry} (h : checkedAddDaysDT segs u days = some r) : r.2.days = 0 := by
  cases hg : gndAddDays u.gnd days with
  | none =>
    simp only [checkedAddDaysDT, hg] at h
    exact Option.noConfusion h
  | some gnd =>
    simp only [checkedAddDaysDT, hg] at h
    split at h
    · exact Option.noConfusion h
    · simp only [Option.some.injEq] at h
      subst h
      rfl

/-- **C10.** Day-level addition on DateTime never produces a day carry:
whenever `checked_add_days` returns `Some`, the returned carry has
`days = 0`; consequently the `assert_eq!(carry2.days, 0)` inside
`checked_apply_carry` can never fail. -/
theorem add_days_day_carry_zero_and_assert_unreachable :
    (∀ (segs : List Segment) (u : UDateTime) (days : Int) (r : UDateTime × Carry),
        checkedAddDaysDT segs u days = some r → r.2.days = 0) ∧
    (∀ (segs : List Segment) (u : UDateTime) (c : Carry),
        checkedApplyCarry segs u c ≠ Except.error FailKind.assertNoDaysCarryFailed) := by
  refine ⟨fun segs u days r h => checkedAddDaysDT_carry_days h, ?_⟩
  intro segs u c h
  cases hg : checkedAddDaysDT segs u (u32AsI32 c.days) with
  | none =>
    simp only [checkedApplyCarry, hg] at h
    exact FailKind.noConfusion (Except.error.inj h)
  | some p =>
    simp only [checkedApplyCarry, hg] at h
    rw [if_neg (fun hne => hne (checkedAddDaysDT_carry_days hg))] at h
    exact Except.noConfusion h

/-- Witness for C10 at the epoch DateTime over the UTC chronology. -/
theorem add_days_day_carry_zero_witness :
    (⟨0, 0⟩ : Carry).days = 0 ∧
    checkedApplyCarry utcSegments ⟨Precision.seconds, ⟨0, 0, 0, 0, 0⟩, 0, 0⟩ ⟨1, 0⟩ ≠
      Except.error FailKind.assertNoDaysCarryFailed :=
  ⟨add_days_day_carry_zero_and_assert_unreachable.1 utcSegments
      ⟨Precision.seconds, ⟨0, 0, 0, 0, 0⟩, 0, 0⟩ 0
      (⟨Precision.seconds, ⟨0, 0, 0, 0, 0⟩, 0, 0⟩, ⟨0, 0⟩) (by decide),
   add_days_day_carry_zero_and_assert_unreachable.2 utcSegments
      ⟨Precision.seconds, ⟨0, 0, 0, 0, 0⟩, 0, 0⟩ ⟨1, 0⟩⟩

/-- The year cascade adds the delta to the total year count, keeps the
fields normalized, fits the cycle in `i8` when the total stays in range,
and leaves the day unchanged. -/
theorem addYearsNoCarry_spec (c : Int) (ce q y d : Nat) (years : Int)
    (h2a : -128 ≤ c) (h2b : c ≤ 127) (h3 : ce ≤ 3) (h4 : q ≤ 24) (h5 : y ≤ 3)
    (hy1 : -9999 ≤ years) (hy2 : years ≤ 9999)
    (hN1 : -51200 ≤ 400 * c + 100 * (ce : Int) + 4 * q + y + years)
    (hN2 : 400 * c + 100 * (ce : Int) + 4 * q + y + years ≤ 50803) :
    ∃ (c' : Int) (ce' q' y' : Nat),
      addYearsNoCarry ⟨c, ce, q, y, d⟩ years = ⟨c', ce', q', y', d⟩ ∧
      400 * c' + 100 * (ce' : Int) + 4 * q' + y' =
        400 * c + 100 * (ce : Int) + 4 * q + y + years ∧
      -128 ≤ c' ∧ c' ≤ 127 ∧ ce' ≤ 3 ∧ q' ≤ 24 ∧ y' ≤ 3 := by
  have hf4 : ∀ a : Int, a.fdiv 4 = a / 4 := fun a => Int.fdiv_eq_ediv a (by norm_num)
  have hm4 : ∀ a : Int, a.fmod 4 = a % 4 := fun a => Int.fmod_eq_emod a (by norm_num)
  have hf25 : ∀ a : Int, a.fdiv 25 = a / 25 := fun a => Int.fdiv_eq_ediv a (by norm_num)
  have hm25 : ∀ a : Int, a.fmod 25 = a % 25 := fun a => Int.fmod_eq_emod a (by norm_num)
  refine ⟨_, _, _, _, rfl, ?_⟩
  simp only [addYearsNoCarry, wrap8, wrap16, hf4, hm4, hf25, hm25]
  refine ⟨?_, ?_, ?_, ?_, ?_, ?_⟩ <;> omega

/-- **C6.** `add_years` adds the delta to the year field and cascades
through floor division into quadrennium, century and cycle, leaving the
day unchanged with day-carry 0 — except when the result lands on day 365
of a non-leap year, where the day is clamped to 364 with a day-carry of 1.
In particular 2000-02-29 00:00:00 plus one year is 2001-02-28 00:00:00
with day-carry 1, and applying that carry yields 2001-03-01 00:00:00. -/
theorem add_years_cascade_and_leap_clamp :
    (∀ (g : GND) (years : Int), GValid g → -9999 ≤ years → years ≤ 9999 →
      -51200 ≤ 400 * g.cycle + 100 * (g.century : Int) + 4 * g.quadrennium + g.year + years →
      400 * g.cycle + 100 * (g.century : Int) + 4 * g.quadrennium + g.year + years ≤ 50803 →
      (400 * (addYears g years).1.cycle + 100 * ((addYears g years).1.century : Int) +
          4 * (addYears g years).1.quadrennium + (addYears g years).1.year =
        400 * g.cycle + 100 * (g.century : Int) + 4 * g.quadrennium + g.year + years) ∧
      -128 ≤ (addYears g years).1.cycle ∧ (addYears g years).1.cycle ≤ 127 ∧
      (addYears g years).1.century ≤ 3 ∧ (addYears g years).1.quadrennium ≤ 24 ∧
      (addYears g years).1.year ≤ 3 ∧
      (if g.day = 365 ∧ isLeapYear (addYearsNoCarry g years).century
            (addYearsNoCarry g years).quadrennium (addYearsNoCarry g years).year = false
       then (addYears g years).1.day = 364 ∧ (addYears g years).2 = true
       else (addYears g years).1.day = g.day ∧ (addYears g years).2 = false)) ∧
    (∃ g0 r dt2,
      fromDate 2000 2 29 = .ok g0 ∧
      checkedAddYearsDT utcSegments ⟨Precision.seconds, g0, 0, 0⟩ 1 = some r ∧
      toDate r.1.gnd = (2001, 2, 28) ∧ r.1.second = 0 ∧ r.2 = ⟨1, 0⟩ ∧
      checkedApplyCarry utcSegments r.1 r.2 = .ok (some dt2) ∧
      toDate dt2.gnd = (2001, 3, 1) ∧ dt2.second = 0) := by
  constructor
  · intro g years hgv hy1 hy2 hN1 hN2
    obtain ⟨c, ce, q, y, d⟩ := g
    obtain ⟨hb1, hb2, hb3, hb4, hb5, hb6, hb7⟩ := hgv
    simp only at hb1 hb2 hb3 hb4 hb5 hN1 hN2 ⊢
    obtain ⟨c', ce', q', y', heq, hsum, hc1, hc2, hce, hq, hy⟩ :=
      addYearsNoCarry_spec c ce q y d years hb1 hb2 hb3 hb4 hb5 hy1 hy2 hN1 hN2
    simp only [addYears, heq]
    by_cases hcl : (d = 365 ∧ isLeapYear ce' q' y' = false)
    · simp only [if_pos hcl]
      exact ⟨hsum, hc1, hc2, hce, hq, hy, by trivial, by trivial⟩
    · simp only [if_neg hcl]
      exact ⟨hsum, hc1, hc2, hce, hq, hy, by trivial, by trivial⟩
  · refine ⟨⟨-1, 3, 24, 3, 365⟩,
      (⟨Precision.seconds, ⟨0, 0, 0, 0, 364⟩, 0, 0⟩, ⟨1, 0⟩),
      ⟨Precision.seconds, ⟨0, 0, 0, 1, 0⟩, 0, 0⟩,
      by decide, by decide, by decide, by decide, by decide, by decide, by decide, by decide⟩

/-- Witness for C6 at the epoch date plus one year. -/
theorem add_years_cascade_witness :
    (400 * (addYears ⟨0, 0, 0, 0, 0⟩ 1).1.cycle +
        100 * ((addYears ⟨0, 0, 0, 0, 0⟩ 1).1.century : Int) +
        4 * (addYears ⟨0, 0, 0, 0, 0⟩ 1).1.quadrennium + (addYears ⟨0, 0, 0, 0, 0⟩ 1).1.year =
      400 * (⟨0, 0, 0, 0, 0⟩ : GND).cycle + 100 * ((⟨0, 0, 0, 0, 0⟩ : GND).century : Int) +
        4 * (⟨0, 0, 0, 0, 0⟩ : GND).quadrennium + (⟨0, 0, 0, 0, 0⟩ : GND).year + 1) ∧
    -128 ≤ (addYears ⟨0, 0, 0, 0, 0⟩ 1).1.cycle ∧ (addYears ⟨0, 0, 0, 0, 0⟩ 1).1.cycle ≤ 127 ∧
    (addYears ⟨0, 0, 0, 0, 0⟩ 1).1.century ≤ 3 ∧
    (addYears ⟨0, 0, 0, 0, 0⟩ 1).1.quadrennium ≤ 24 ∧
    (addYears ⟨0, 0, 0, 0, 0⟩ 1).1.year ≤ 3 ∧
    (if (⟨0, 0, 0, 0, 0⟩ : GND).day = 365 ∧
        isLeapYear (addYearsNoCarry ⟨0, 0, 0, 0, 0⟩ 1).century
          (addYearsNoCarry ⟨0, 0, 0, 0, 0⟩ 1).quadrennium
          (addYearsNoCarry ⟨0, 0, 0, 0, 0⟩ 1).year = false
     then (addYears ⟨0, 0, 0, 0, 0⟩ 1).1.day = 364 ∧ (addYears ⟨0, 0, 0, 0, 0⟩ 1).2 = true
     else (addYears ⟨0, 0, 0, 0, 0⟩ 1).1.day = (⟨0, 0, 0, 0, 0⟩ : GND).day ∧
       (addYears ⟨0, 0, 0, 0, 0⟩ 1).2 = false) :=
  add_years_cascade_and_leap_clamp.1 ⟨0, 0, 0, 0, 0⟩ 1 (by decide) (by decide) (by decide)
    (by decide) (by decide)

/-- An in-segment `by_day` answer comes from the `find?` scan. -/
theorem byDay_in_find {segs : List Segment} {day : Int} {s : Segment}
    (h : byDay segs day = some (.inSegment s)) :
    segs.find? (fun t => containsDay t day) = some s := by
  cases segs with
  | nil => simp [byDay] at h
  | cons first rest =>
    simp only [byDay] at h
    split at h
    · simp at h
    · cases hfind : List.find? (fun t => containsDay t day) (first :: rest) with
      | some t =>
        rw [hfind] at h
        simp only [Option.some.injEq, SegmentLookupResult.inSegment.injEq] at h
        rw [h]
      | none =>
        rw [hfind] at h
        cases hl : (first :: rest).getLast? with
        | none => rw [hl] at h; simp at h
        | some last => rw [hl] at h; simp at h

/-- On a well-formed chronology whose leap counts are at least `-60`, the
builder's 23:59 minute length equals `60` plus the spec's end-of-day leap
count of the date's fixed day. -/
theorem builderMinuteLength_eq {segs : List Segment} (hwf : WFSegments segs = true)
    (hleap : ∀ t ∈ segs, -60 ≤ t.leap_seconds) (g : GND) :
    ((builderMinuteLength segs g : Nat) : Int) = 60 + eodLeap segs (toDay g) := by
  obtain ⟨first, rest, last, hcons, hchain, hl, hle⟩ := wf_destruct hwf
  cases hfind : segs.find? (fun t => containsDay t (toDay g)) with
  | none =>
    have he : eodLeap segs (toDay g) = 0 := by simp only [eodLeap, hfind]
    rw [he]
    cases hbd : byDay segs (toDay g) with
    | none => simp only [builderMinuteLength, hbd]; norm_num
    | some r =>
      cases r with
      | inSegment t => exact absurd (byDay_in_find hbd) (by rw [hfind]; simp)
      | beforeFirst f => simp only [builderMinuteLength, hbd]; norm_num
      | afterLast l => simp only [builderMinuteLength, hbd]; norm_num
  | some t =>
    have hmem := List.mem_of_find?_eq_some hfind
    have hc := @List.find?_some _ (fun x => containsDay x (toDay g)) t _ hfind
    have hcd : containsDay t (toDay g) = true := by simpa using hc
    have hbd := byDay_eq_in hchain hmem hcd
    have he : eodLeap segs (toDay g) =
        if toDay g = t.endDay - 1 then t.leap_seconds else 0 := by
      simp only [eodLeap, hfind]
    have hub := chain_mem_facts hchain hmem
    have hlb := hleap t hmem
    simp only [builderMinuteLength, hbd, he, Segment.endDay]
    by_cases hlastday : toDay g - t.start_day = t.duration_days - 1
    · rw [if_pos hlastday, if_pos (by omega)]
      have hmod : (60 + t.leap_seconds) % 256 = 60 + t.leap_seconds := by omega
      rw [hmod]
      omega
    · rw [if_neg hlastday, if_neg (by omega)]
      norm_num

/-- A `checked_build` run that ended in `InvalidDateTime` settles all three
outcome characterizations. -/
theorem cb_triple_of_invalid {cb : Except BuildError (GND × Nat × Nat)} {y : Nat} {P : Prop}
    (hcb : cb = .error .invalidDateTime) (hy : y ≤ 9999) (hP : ¬P) :
    (cb = .error .dateTimeOutOfBounds ↔ 9999 < y) ∧
    ((∃ v, cb = .ok v) ↔ y ≤ 9999 ∧ P) ∧
    (cb = .error .invalidDateTime ↔ y ≤ 9999 ∧ ¬P) := by
  subst hcb
  refine ⟨⟨fun hh => absurd hh (by simp), fun hh => absurd hh (by omega)⟩,
    ⟨fun hv => absurd hv.choose_spec (by simp), fun hh => absurd hh.2 hP⟩,
    ⟨fun _ => ⟨hy, hP⟩, fun _ => rfl⟩⟩

/-- A `checked_build` run that succeeded settles all three outcome
characterizations. -/
theorem cb_triple_of_ok {cb : Except BuildError (GND × Nat × Nat)}
    {v0 : GND × Nat × Nat} {y : Nat} {P : Prop}
    (hcb : cb = .ok v0) (hy : y ≤ 9999) (hP : P) :
    (cb = .error .dateTimeOutOfBounds ↔ 9999 < y) ∧
    ((∃ v, cb = .ok v) ↔ y ≤ 9999 ∧ P) ∧
    (cb = .error .invalidDateTime ↔ y ≤ 9999 ∧ ¬P) := by
  subst hcb
  refine ⟨⟨fun hh => absurd hh (by simp), fun hh => absurd hh (by omega)⟩,
    ⟨fun _ => ⟨hy, hP⟩, fun _ => ⟨v0, rfl⟩⟩,
    ⟨fun hh => absurd hh (by simp), fun hh => absurd hP hh.2⟩⟩

/-- A `checked_build` run that ended out-of-bounds settles all three
outcome characterizations. -/
theorem cb_triple_of_oob {cb : Except BuildError (GND × Nat × Nat)} {y : Nat} {P : Prop}
    (hcb : cb = .error .dateTimeOutOfBounds) (hy : 9999 < y) :
    (cb = .error .dateTimeOutOfBounds ↔ 9999 < y) ∧
    ((∃ v, cb = .ok v) ↔ y ≤ 9999 ∧ P) ∧
    (cb = .error .invalidDateTime ↔ y ≤ 9999 ∧ ¬P) := by
  subst hcb
  refine ⟨⟨fun _ => hy, fun _ => rfl⟩,
    ⟨fun hv => absurd hv.choose_spec (by simp), fun hh => absurd hh.1 (by omega)⟩,
    ⟨fun hh => absurd hh (by simp), fun hh => absurd hh.1 (by omega)⟩⟩

/-- The normalized leap-year test of `from_date` on the March-based year
agrees with the standard Gregorian leap rule on the civil year. -/
theorem feb_leap_bridge (y : Nat) (hy : y ≤ 9999) :
    isLeapYear (clampedDivRem (((y : Int) - 2001).fmod 400).toNat 100 3).1
      (clampedDivRem (clampedDivRem (((y : Int) - 2001).fmod 400).toNat 100 3).2 4 24).1
      (clampedDivRem (clampedDivRem (((y : Int) - 2001).fmod 400).toNat 100 3).2 4 24).2
      = gregorianLeapYear y := by
  have hm400 : ((y : Int) - 2001).fmod 400 = ((y : Int) - 2001) % 400 :=
    Int.fmod_eq_emod _ (by norm_num)
  simp only [clampedDivRem, isLeapYear, gregorianLeapYear, hm400]
  rw [Bool.eq_iff_iff]
  simp only [Bool.and_eq_true, Bool.not_eq_true', Bool.and_eq_false_iff, beq_iff_eq,
    bne_eq_false_iff_eq, beq_eq_false_iff_ne, ne_eq, Bool.or_eq_true, bne_iff_ne]
  omega

/-- `from_date` characterization: with the year within 0..=9999, an
out-of-range month is `InvalidDate`; with a valid month, the call succeeds
exactly when the day is within the standard month length. -/
theorem fromDate_cases (y mo d : Nat) (hy : y ≤ 9999) (hd : d ≤ 255) :
    ((mo = 0 ∨ 13 ≤ mo) → fromDate y mo d = .error .invalidDate) ∧
    (1 ≤ mo → mo ≤ 12 →
      ((d = 0 ∨ daysInMonth y mo < d) → fromDate y mo d = .error .invalidDate) ∧
      (1 ≤ d → d ≤ daysInMonth y mo → ∃ g, fromDate y mo d = .ok g)) := by
  constructor
  · intro hmo
    rw [fromDate, if_neg (by unfold MIN_YEAR MAX_YEAR; omega), if_pos (by omega)]
  · intro hmo1 hmo2
    rw [fromDate, if_neg (by unfold MIN_YEAR MAX_YEAR; omega), if_neg (by omega)]
    interval_cases mo
    · constructor
      · intro hdd
        norm_num [daysInMonth] at hdd
        simp only []
        norm_num [yearDayFromMonth]
        intro hcond
        exact absurd hcond (by omega)
      · intro hd1 hd2
        norm_num [daysInMonth] at hd2
        simp only []
        norm_num [yearDayFromMonth]
        rw [if_neg (by omega)]
        exact ⟨_, rfl⟩
    · constructor
      · intro hdd
        norm_num [daysInMonth] at hdd
        simp only []
        rw [if_pos (show (1:Nat) < 2 by norm_num), if_pos (show (1:Nat) < 2 by norm_num)]
        rw [show ((y:Int) - 1 - 2000) = ((y:Int) - 2001) by ring]
        rw [if_pos (show (13 - 2 : Nat) = 11 by norm_num), feb_leap_bridge y hy]
        by_cases hlp : gregorianLeapYear y = true
        · rw [if_pos hlp] at hdd ⊢
          rw [if_pos (by omega)]
        · rw [if_neg hlp] at hdd ⊢
          rw [if_pos (by omega)]
      · intro hd1 hd2
        norm_num [daysInMonth] at hd2
        simp only []
        rw [if_pos (show (1:Nat) < 2 by norm_num), if_pos (show (1:Nat) < 2 by norm_num)]
        rw [show ((y:Int) - 1 - 2000) = ((y:Int) - 2001) by ring]
        rw [if_pos (show (13 - 2 : Nat) = 11 by norm_num), feb_leap_bridge y hy]
        by_cases hlp : gregorianLeapYear y = true
        · rw [if_pos hlp] at hd2 ⊢
          rw [if_neg (by omega)]
          exact ⟨_, rfl⟩
        · rw [if_neg hlp] at hd2 ⊢
          rw [if_neg (by omega)]
          exact ⟨_, rfl⟩
    · constructor
      · intro hdd
        norm_num [daysInMonth] at hdd
        simp only []
        norm_num [yearDayFromMonth]
        intro hcond
        exact absurd hcond (by omega)
      · intro hd1 hd2
        norm_num [daysInMonth] at hd2
        simp only []
        norm_num [yearDayFromMonth]
        rw [if_neg (by omega)]
        exact ⟨_, rfl⟩
    · constructor
      · intro hdd
        norm_num [daysInMonth] at hdd
        simp only []
        norm_num [yearDayFromMonth]
        intro hcond
        exact absurd hcond (by omega)
      · intro hd1 hd2
        norm_num [daysInMonth] at hd2
        simp only []
        norm_num [yearDayFromMonth]
        rw [if_neg (by omega)]
        exact ⟨_, rfl⟩
    · constructor
      · intro hdd
        norm_num [daysInMonth] at hdd
        simp only []
        norm_num [yearDayFromMonth]
        intro hcond
        exact absurd hcond (by omega)
      · intro hd1 hd2
        norm_num [daysInMonth] at hd2
        simp only []
        norm_num [yearDayFromMonth]
        rw [if_neg (by omega)]
        exact ⟨_, rfl⟩
    · constructor
      · intro hdd
        norm_num [daysInMonth] at hdd
        simp only []
        norm_num [yearDayFromMonth]
        intro hcond
        exact absurd hcond (by omega)
      · intro hd1 hd2
        norm_num [daysInMonth] at hd2
        simp only []
        norm_num [yearDayFromMonth]
        rw [if_neg (by omega)]
        exact ⟨_, rfl⟩
    · constructor
      · intro hdd
        norm_num [daysInMonth] at hdd
        simp only []
        norm_num [yearDayFromMonth]
        intro hcond
        exact absurd hcond (by omega)
      · intro hd1 hd2
        norm_num [daysInMonth] at hd2
        simp only []
        norm_num [yearDayFromMonth]
        rw [if_neg (by omega)]
        exact ⟨_, rfl⟩
    · constructor
      · intro hdd
        norm_num [daysInMonth] at hdd
        simp only []
        norm_num [yearDayFromMonth]
        intro hcond
        exact absurd hcond (by omega)
      · intro hd1 hd2
        norm_num [daysInMonth] at hd2
        simp only []
        norm_num [yearDayFromMonth]
        rw [if_neg (by omega)]
        exact ⟨_, rfl⟩
    · constructor
      · intro hdd
        norm_num [daysInMonth] at hdd
        simp only []
        norm_num [yearDayFromMonth]
        intro hcond
        exact absurd hcond (by omega)
      · intro hd1 hd2
        norm_num [daysInMonth] at hd2
        simp only []
        norm_num [yearDayFromMonth]
        rw [if_neg (by omega)]
        exact ⟨_, rfl⟩
    · constructor
      · intro hdd
        norm_num [daysInMonth] at hdd
        simp only []
        norm_num [yearDayFromMonth]
        intro hcond
        exact absurd hcond (by omega)
      · intro hd1 hd2
        norm_num [daysInMonth] at hd2
        simp only []
        norm_num [yearDayFromMonth]
        rw [if_neg (by omega)]
        exact ⟨_, rfl⟩
    · constructor
      · intro hdd
        norm_num [daysInMonth] at hdd
        simp only []
        norm_num [yearDayFromMonth]
        intro hcond
        exact absurd hcond (by omega)
      · intro hd1 hd2
        norm_num [daysInMonth] at hd2
        simp only []
        norm_num [yearDayFromMonth]
        rw [if_neg (by omega)]
        exact ⟨_, rfl⟩
    · constructor
      · intro hdd
        norm_num [daysInMonth] at hdd
        simp only []
        norm_num [yearDayFromMonth]
        intro hcond
        exact absurd hcond (by omega)
      · intro hd1 hd2
        norm_num [daysInMonth] at hd2
        simp only []
        norm_num [yearDayFromMonth]
        rw [if_neg (by omega)]
        exact ⟨_, rfl⟩

/-- **C7.** `checked_build` fails exactly on invalid input: it returns
`DateTimeOutOfBounds` iff the supplied year exceeds 9999; it succeeds iff
additionally the month is in 1..=12, the day is a valid day of that month,
hour < 24, minute < 60, the subsecond fields are below 1000, and the
second is below the true minute length — 60 plus the leap count of the
containing segment exactly when the date is the segment's last day and the
time is 23:59, else 60; it returns `InvalidDateTime` in every other case. -/
theorem checked_build_fails_exactly_on_invalid :
    ∀ (segs : List Segment) (y mo d h mi s ms us ns : Nat),
    WFSegments segs = true → (∀ t ∈ segs, -60 ≤ t.leap_seconds) → d ≤ 255 →
    ((checkedBuild segs y mo d h mi s ms us ns = .error .dateTimeOutOfBounds ↔ 9999 < y) ∧
     ((∃ v, checkedBuild segs y mo d h mi s ms us ns = .ok v) ↔
        y ≤ 9999 ∧ (1 ≤ mo ∧ mo ≤ 12 ∧ 1 ≤ d ∧ d ≤ daysInMonth y mo ∧ h < 24 ∧ mi < 60 ∧
          (s : Int) < minuteLengthSpec segs y mo d h mi ∧
          ms < 1000 ∧ us < 1000 ∧ ns < 1000)) ∧
     (checkedBuild segs y mo d h mi s ms us ns = .error .invalidDateTime ↔
        y ≤ 9999 ∧ ¬(1 ≤ mo ∧ mo ≤ 12 ∧ 1 ≤ d ∧ d ≤ daysInMonth y mo ∧ h < 24 ∧ mi < 60 ∧
          (s : Int) < minuteLengthSpec segs y mo d h mi ∧
          ms < 1000 ∧ us < 1000 ∧ ns < 1000))) := by
  intro segs y mo d h mi s ms us ns hwf hlp60 hd255
  by_cases hy : 9999 < y
  · exact cb_triple_of_oob (by simp only [checkedBuild]; rw [if_pos hy]) hy
  · push_neg at hy
    have hy2 : ¬(9999 < y) := by omega
    by_cases hmo : 1 ≤ mo ∧ mo ≤ 12
    · by_cases hday : 1 ≤ d ∧ d ≤ daysInMonth y mo
      · obtain ⟨g, hg⟩ := ((fromDate_cases y mo d hy hd255).2 hmo.1 hmo.2).2 hday.1 hday.2
        have hml : (((if h ≠ 23 ∨ mi ≠ 59 then 60 else builderMinuteLength segs g) : Nat) : Int)
            = minuteLengthSpec segs y mo d h mi := by
          by_cases h23 : h = 23 ∧ mi = 59
          · simp only [minuteLengthSpec, if_pos h23, hg]
            rw [if_neg (show ¬(h ≠ 23 ∨ mi ≠ 59) by tauto)]
            exact builderMinuteLength_eq hwf hlp60 g
          · simp only [minuteLengthSpec, if_neg h23]
            rw [if_pos (show (h ≠ 23 ∨ mi ≠ 59) by tauto)]
            norm_num
        by_cases hhm : 24 ≤ h ∨ 60 ≤ mi
        · have hE : checkedBuild segs y mo d h mi s ms us ns = .error .invalidDateTime := by
            simp only [checkedBuild, hg]
            rw [if_neg hy2, if_pos hhm]
          refine cb_triple_of_invalid hE hy (fun hP => ?_)
          obtain ⟨_, _, _, _, hh24, hmi60, _⟩ := hP
          rcases hhm with hh | hh <;> omega
        · by_cases hsec : ((if h ≠ 23 ∨ mi ≠ 59 then 60 else builderMinuteLength segs g) ≤ s ∨
              1000 ≤ ms ∨ 1000 ≤ us ∨ 1000 ≤ ns)
          · have hE : checkedBuild segs y mo d h mi s ms us ns = .error .invalidDateTime := by
              simp only [checkedBuild, hg]
              rw [if_neg hy2, if_neg hhm, if_pos hsec]
            refine cb_triple_of_invalid hE hy (fun hP => ?_)
            obtain ⟨_, _, _, _, _, _, hsml, hms, hus, hns⟩ := hP
            rw [← hml] at hsml
            rcases hsec with hh | hh | hh | hh <;> omega
          · have hE : checkedBuild segs y mo d h mi s ms us ns =
                .ok (g, h * 3600 + mi * 60 + s, ms * 1000000 + us * 1000 + ns) := by
              simp only [checkedBuild, hg]
              rw [if_neg hy2, if_neg hhm, if_neg hsec]
            refine cb_triple_of_ok hE hy ?_
            push_neg at hsec hhm
            refine ⟨hmo.1, hmo.2, hday.1, hday.2, by omega, by omega, ?_,
              by omega, by omega, by omega⟩
            rw [← hml]
            exact_mod_cast hsec.1
      · have hferr := ((fromDate_cases y mo d hy hd255).2 hmo.1 hmo.2).1 (by omega)
        have hE : checkedBuild segs y mo d h mi s ms us ns = .error .invalidDateTime := by
          simp only [checkedBuild, hferr]
          rw [if_neg hy2]
        exact cb_triple_of_invalid hE hy (fun hP => hday ⟨hP.2.2.1, hP.2.2.2.1⟩)
    · have hferr := (fromDate_cases y mo d hy hd255).1 (by omega)
      have hE : checkedBuild segs y mo d h mi s ms us ns = .error .invalidDateTime := by
        simp only [checkedBuild, hferr]
        rw [if_neg hy2]
      exact cb_triple_of_invalid hE hy (fun hP => hmo ⟨hP.1, hP.2.1⟩)

/-- Witness for C7 at 2000-03-01 00:00:00 over the UTC chronology. -/
theorem checked_build_witness :
    (checkedBuild utcSegments 2000 3 1 0 0 0 0 0 0 = .error .dateTimeOutOfBounds ↔ 9999 < 2000) ∧
    ((∃ v, checkedBuild utcSegments 2000 3 1 0 0 0 0 0 0 = .ok v) ↔
      2000 ≤ 9999 ∧ (1 ≤ 3 ∧ 3 ≤ 12 ∧ 1 ≤ 1 ∧ 1 ≤ daysInMonth 2000 3 ∧ 0 < 24 ∧ 0 < 60 ∧
        ((0 : Nat) : Int) < minuteLengthSpec utcSegments 2000 3 1 0 0 ∧
        0 < 1000 ∧ 0 < 1000 ∧ 0 < 1000)) ∧
    (checkedBuild utcSegments 2000 3 1 0 0 0 0 0 0 = .error .invalidDateTime ↔
      2000 ≤ 9999 ∧ ¬(1 ≤ 3 ∧ 3 ≤ 12 ∧ 1 ≤ 1 ∧ 1 ≤ daysInMonth 2000 3 ∧ 0 < 24 ∧ 0 < 60 ∧
        ((0 : Nat) : Int) < minuteLengthSpec utcSegments 2000 3 1 0 0 ∧
        0 < 1000 ∧ 0 < 1000 ∧ 0 < 1000)) :=
  checked_build_fails_exactly_on_invalid utcSegments 2000 3 1 0 0 0 0 0 0
    (by decide) (by decide) (by decide)

end Momentous
